import Mathlib

/-!
# testutils: the fake HTTP server of `testutils/testing_server.go`

A shallow embedding of the Go package `testutils` and of the parts of the Go
standard library it calls.

Conventions of the embedding.

* Go strings and byte slices are Lean `String`s (text that is valid UTF-8);
  `string(body)` is the identity.
* Go `int` is `Int`.
* A Go map `map[string][]string` is a list of entries whose keys are pairwise
  different; `range` visits the entries in list order, and the order does not
  matter for what the handler sends (`Server.copyHeader_any_order`).
* The standard library is modelled after its documented behaviour:
  `ioutil.ReadAll`, `fmt.Fprintf` (called with an empty operand list),
  `http.ResponseWriter`, `net.Listen`, `time.Sleep`, `httptest`.
* A response is what the handler gives to the `http.ResponseWriter` of the
  net/http server and what that writer does with it (`WriteHeader`, `Write`):
  the header map, the status, the interim responses, the body accepted.
* `sync.RWMutex`: in the sequential part every method runs alone, so the lock
  is not represented; in the interleaving part (`Config`, `Config.step`) every
  critical section of the source, and every unlocked read of `s.response`, is
  one atomic step.
-/

namespace testutils

/-! ## Panics -/

/-- A value given to Go's `panic`. -/
inductive PanicValue where
  /-- Case `panic("...")` with a string. -/
  | string (msg : String)
  /-- Case `panic(err)` with an error value, `err.Error()` being `msg`. -/
  | error (msg : String)
  /-- The panic of `WriteHeader` on a status code outside 100..999
  (net/http `checkWriteHeaderCode`: "invalid WriteHeader code <code>"). -/
  | invalidWriteHeaderCode (code : Int)
deriving DecidableEq, Repr

deriving instance DecidableEq for Except

/-! ## strconv -/

namespace strconv

/-- The digit loop of `ParseUint` in base 10: the number, or `none` at a character that
is not a digit. -/
def parseDigits : List Char → Nat → Option Nat
  | [], n => some n
  | c :: cs, n =>
    if '0' ≤ c ∧ c ≤ '9' then parseDigits cs (n * 10 + (c.toNat - '0'.toNat)) else none

/-- Go's `strconv.ParseInt(s, 10, 64)`: an optional sign and decimal digits, within the
range of `int64`; `none` is an error. -/
def ParseInt (s : String) : Option Int :=
  match s.data with
  | [] => none
  | c :: cs =>
    let neg := c == '-'
    let digits := if c == '+' || c == '-' then cs else c :: cs
    match digits with
    | [] => none
    | _ =>
      match parseDigits digits 0 with
      | none => none
      | some n =>
        if !neg && decide (n ≥ 2 ^ 63) then none
        else if neg && decide (n > 2 ^ 63) then none
        else some (if neg then -(n : Int) else (n : Int))

end strconv

/-! ## net/http -/

namespace http

/-- The entries of a Go map after the assignment `m[k] = v`. -/
def setEntry (k : String) (v : List String) :
    List (String × List String) → List (String × List String)
  | [] => [(k, v)]
  | (k', v') :: rest =>
    if k' = k then (k, v) :: rest else (k', v') :: setEntry k v rest

/-- Go's `http.Header`, a `map[string][]string`: entries with pairwise different keys.
The nil map and the empty map are both the empty list. -/
structure Header where
  entries : List (String × List String)
  nodup : (entries.map Prod.fst).Nodup
deriving DecidableEq

namespace Header

/-- The map `make(map[string][]string)`. -/
def empty : Header := ⟨[], List.nodup_nil⟩

/-- The lookup `v, ok := h[k]`. -/
def get (h : Header) (k : String) : Option (List String) :=
  h.entries.lookup k

/-- The assignment `h[k] = v`. -/
def set (h : Header) (k : String) (v : List String) : Header :=
  ⟨setEntry k v h.entries, by
    have key : ∀ l : List (String × List String),
        ∀ x, x ∈ (setEntry k v l).map Prod.fst → x = k ∨ x ∈ l.map Prod.fst := by
      intro l
      induction l with
      | nil => intro x hx; simpa [setEntry] using hx
      | cons a rest ih =>
        intro x hx
        by_cases h : a.1 = k
        · simp only [setEntry, h, if_true, List.map_cons, List.mem_cons] at hx
          rcases hx with hx | hx
          · exact Or.inl hx
          · exact Or.inr (by simp [hx])
        · simp only [setEntry, h, if_false, List.map_cons, List.mem_cons] at hx
          rcases hx with hx | hx
          · exact Or.inr (by simp [hx])
          · rcases ih x hx with h1 | h1
            · exact Or.inl h1
            · exact Or.inr (by simp [h1])
    have main : ∀ l : List (String × List String),
        (l.map Prod.fst).Nodup → ((setEntry k v l).map Prod.fst).Nodup := by
      intro l
      induction l with
      | nil => intro _; simp [setEntry]
      | cons a rest ih =>
        intro hl
        rw [List.map_cons, List.nodup_cons] at hl
        by_cases h : a.1 = k
        · simp only [setEntry, h, if_true, List.map_cons, List.nodup_cons]
          exact ⟨h ▸ hl.1, hl.2⟩
        · simp only [setEntry, h, if_false, List.map_cons, List.nodup_cons]
          refine ⟨fun hmem => ?_, ih hl.2⟩
          rcases key rest _ hmem with h1 | h1
          · exact h h1
          · exact hl.1 h1
    exact main h.entries h.nodup⟩

/-- Go's unexported `h.get(key)`: the first value under the key, or the empty string. -/
def getValue (h : Header) (k : String) : String :=
  match h.get k with
  | some (v :: _) => v
  | _ => ""

/-- The call `h.Del(key)` for a key in canonical form: `delete(h, key)`. -/
def del (h : Header) (k : String) : Header :=
  ⟨h.entries.filter (fun e => e.1 != k),
    h.nodup.sublist ((List.filter_sublist _).map Prod.fst)⟩

end Header

/-- The constant `http.StatusOK`. -/
def StatusOK : Int := 200

/-- The constant `http.StatusNotFound`. -/
def StatusNotFound : Int := 404

/-- The constant `http.StatusSwitchingProtocols`. -/
def StatusSwitchingProtocols : Int := 101

/-- The `http.ResponseWriter` of the net/http server (`*http.response`), as the handler
sees it: the header map `w.Header()`; the status of the response once the header is
written (`wroteHeader`, `status`), `none` before; the status codes of the interim
responses sent so far; the declared `contentLength`, `none` being -1; the counter
`written` of body bytes; the bytes `Write` accepted as the body. (For a `HEAD` request
`Write` accepts the bytes as for any request and the server leaves them out on the
wire; the writer is the same for all requests here.) -/
structure ResponseWriter where
  header : Header
  status : Option Int
  informational : List Int
  contentLength : Option Nat
  written : Nat
  body : String
deriving DecidableEq

/-- The writer the HTTP server hands to the handler for a new request. -/
def ResponseWriter.fresh : ResponseWriter := ⟨Header.empty, none, [], none, 0, ""⟩

/-- Go's `checkWriteHeaderCode`: a status code is accepted when it has three digits. -/
def checkWriteHeaderCode (code : Int) : Bool :=
  !(decide (code < 100) || decide (code > 999))

/-- The test of `WriteHeader` for an informational code:
`code >= 100 && code <= 199 && code != StatusSwitchingProtocols`. -/
def isInformational (code : Int) : Bool :=
  decide (code ≥ 100) && decide (code ≤ 199) && decide (code ≠ StatusSwitchingProtocols)

/-- Go's `bodyAllowedForStatus`: no body with a status 1xx, 204 or 304. -/
def bodyAllowedForStatus (status : Int) : Bool :=
  if status ≥ 100 ∧ status ≤ 199 then false
  else if status = 204 then false
  else if status = 304 then false
  else true

/-- The block of `WriteHeader` on the `Content-Length` header: a value that parses as a
length is recorded, any other non-empty value is deleted from the header map. -/
def ResponseWriter.readContentLength (w : ResponseWriter) : ResponseWriter :=
  let cl := w.header.getValue "Content-Length"
  if cl ≠ "" then
    match strconv.ParseInt cl with
    | some v =>
      if v ≥ 0 then { w with contentLength := some v.toNat }
      else { w with header := w.header.del "Content-Length" }
    | none => { w with header := w.header.del "Content-Length" }
  else w

/-- The call `w.WriteHeader(code)`. On a written header the call is superfluous and
returns at once. Else the code is checked, with a panic on a code that is not accepted.
An informational code is sent as an interim response and leaves the header unwritten.
Any other code becomes the status of the response, and the `Content-Length` header is
read. -/
def ResponseWriter.WriteHeader (w : ResponseWriter) (code : Int) :
    Except PanicValue ResponseWriter :=
  match w.status with
  | some _ => .ok w
  | none =>
    if !checkWriteHeaderCode code then .error (PanicValue.invalidWriteHeaderCode code)
    else if isInformational code then
      .ok { w with informational := w.informational ++ [code] }
    else .ok ({ w with status := some code } : ResponseWriter).readContentLength

/-- The call `w.Write(data)`: an unwritten header is first written with
`WriteHeader(StatusOK)`, which for this code sets the status and reads the
`Content-Length` header. Then nothing is written if the data is empty, or if the status
allows no body (`ErrBodyNotAllowed`), or if the bytes counted so far exceed the declared
content length (`ErrContentLength`); else the bytes are appended to the body. -/
def ResponseWriter.Write (w : ResponseWriter) (data : String) : ResponseWriter :=
  let w : ResponseWriter :=
    match w.status with
    | none => ({ w with status := some StatusOK } : ResponseWriter).readContentLength
    | some _ => w
  if data.utf8ByteSize = 0 then w
  else if !bodyAllowedForStatus (w.status.getD StatusOK) then w
  else
    let w : ResponseWriter := { w with written := w.written + data.utf8ByteSize }
    match w.contentLength with
    | some cl => if w.written > cl then w else { w with body := w.body ++ data }
    | none => { w with body := w.body ++ data }

end http

/-! ## io, io/ioutil -/

namespace ioutil

/-- An `io.ReadCloser` as `ReadAll` sees it: the chunks its `Read` calls deliver
and then the error that ends the stream, `none` being `io.EOF`. -/
structure ReadCloser where
  chunks : List String
  err : Option String
deriving DecidableEq

/-- Go's `ioutil.ReadAll`: reads until EOF or an error and returns the data read so far
together with the error (`nil`, here `none`, at EOF). -/
def ReadAll (r : ReadCloser) : String × Option String :=
  (r.chunks.foldl (fun buf chunk => buf ++ chunk) "", r.err)

end ioutil

namespace url

/-- Go's `url.URL`, of which the handler reads `Path`. -/
structure URL where
  Path : String
deriving DecidableEq

end url

namespace http

/-- Go's `http.Request`, of which the handler reads `Method`, `URL.Path` and `Body`. -/
structure Request where
  Method : String
  URL : url.URL
  Body : ioutil.ReadCloser
deriving DecidableEq

end http

/-! ## fmt

`fmt.Fprintf(w, format)` with no operands: the format string is still scanned
for verbs, and every verb finds its operand missing. The functions follow
`fmt/print.go` (`doPrintf`, `argNumber`, `parseArgNumber`, `parsenum`,
`tooLarge`), specialised to the empty operand list where a comment says so.
A position `i` in the format is the suffix of the format that starts at `i`. -/

namespace fmt

def percentBangString : String := "%!"
def missingString : String := "(MISSING)"
def badIndexString : String := "(BADINDEX)"
def noVerbString : String := "%!(NOVERB)"
def badWidthString : String := "%!(BADWIDTH)"
def badPrecString : String := "%!(BADPREC)"

/-- The printer state `pp`: the output buffer and the two flags `doPrintf` keeps. -/
structure pp where
  buf : List Char
  goodArgNum : Bool
  reordered : Bool
deriving DecidableEq

/-- The call `p.buf.writeString(s)`. -/
def pp.writeString (p : pp) (s : List Char) : pp := { p with buf := p.buf ++ s }

/-- Go's `tooLarge`: the integer is beyond the limit of a width or an index. -/
def tooLarge (x : Nat) : Bool := decide (x > 1000000)

/-- The loop of `parsenum` over the digits of `s`; on overflow Go returns
`0, false, end`, the position `end` being the empty suffix. -/
def parsenumLoop : Nat → Bool → List Char → Nat × Bool × List Char
  | num, isnum, [] => (num, isnum, [])
  | num, isnum, c :: cs =>
    if '0' ≤ c ∧ c ≤ '9' then
      if tooLarge num then (0, false, [])
      else parsenumLoop (num * 10 + (c.toNat - '0'.toNat)) true cs
    else (num, isnum, c :: cs)

/-- Go's `parsenum(s, start, end)` on the segment `s[start:end]`: the number, whether
one is present, and the position after it. -/
def parsenum (s : List Char) : Nat × Bool × List Char := parsenumLoop 0 false s

/-- Go's `parseArgNumber(format)`, the format starting at an opening bracket: the
zero-based index, the number of bytes to consume, and whether the number parsed. -/
def parseArgNumber (format : List Char) : Int × Nat × Bool :=
  if format.length < 3 then (0, 1, false)
  else
    let inner := (format.drop 1).takeWhile (fun c => c != ']')
    -- the closing bracket is at index `i`, if there is one
    let i := 1 + inner.length
    if i < format.length then
      let (width, ok, rest) := parsenum inner
      if !ok || !rest.isEmpty then (0, i + 1, false)
      else ((width : Int) - 1, i + 1, true)
    else (0, 1, false)

/-- Go's `p.argNumber(argNum, format, i, numArgs)`: the next operand number, the new
position and whether an index was found; the printer records a bad index. -/
def argNumber (p : pp) (argNum : Nat) (format : List Char) (numArgs : Nat) :
    pp × Nat × List Char × Bool :=
  match format with
  | '[' :: _ =>
    let p := { p with reordered := true }
    let (index, wid, ok) := parseArgNumber format
    if ok && decide (0 ≤ index) && decide (index < (numArgs : Int)) then
      (p, index.toNat, format.drop wid, true)
    else ({ p with goodArgNum := false }, argNum, format.drop wid, ok)
  | _ => (p, argNum, format, false)

/-- The flag characters of the `simpleFormat` loop. -/
def isFlag (c : Char) : Bool :=
  c == '#' || c == '0' || c == '+' || c == '-' || c == ' '

/-- Go's `p.badArgNum(verb)`. -/
def pp.badArgNum (p : pp) (verb : Char) : pp :=
  p.writeString (percentBangString.data ++ [verb] ++ badIndexString.data)

/-- Go's `p.missingArg(verb)`. -/
def pp.missingArg (p : pp) (verb : Char) : pp :=
  p.writeString (percentBangString.data ++ [verb] ++ missingString.data)

/-- The local variables of `doPrintf` while it scans one verb: the printer, the operand
number `argNum`, the position in the format, and `afterIndex`. -/
structure verbScan where
  p : pp
  argNum : Nat
  format : List Char
  afterIndex : Bool

/-- The statement `argNum, i, afterIndex = p.argNumber(argNum, format, i, len(a))` with
`len(a)` zero. -/
def verbScan.index (st : verbScan) : verbScan :=
  let (p, argNum, format, afterIndex) := argNumber st.p st.argNum st.format 0
  ⟨p, argNum, format, afterIndex⟩

/-- The block "Do we have width?". For a star `intFromArg` finds no operand, so the
width is bad. -/
def verbScan.width (st : verbScan) : verbScan :=
  match st.format with
  | '*' :: rest => ⟨st.p.writeString badWidthString.data, st.argNum, rest, false⟩
  | _ =>
    let (_, widPresent, rest) := parsenum st.format
    ⟨if st.afterIndex && widPresent then { st.p with goodArgNum := false } else st.p,
      st.argNum, rest, st.afterIndex⟩

/-- The block "Do we have precision?". For a star `intFromArg` finds no operand, so the
precision is bad. -/
def verbScan.precision (st : verbScan) : verbScan :=
  match st.format with
  | '.' :: c :: rest =>
    -- `i+1 < end`: a character follows the period
    let rest := c :: rest
    let p := if st.afterIndex then { st.p with goodArgNum := false } else st.p
    let st : verbScan := verbScan.index ⟨p, st.argNum, rest, st.afterIndex⟩
    match st.format with
    | '*' :: rest => ⟨st.p.writeString badPrecString.data, st.argNum, rest, false⟩
    | _ =>
      let (_, _, rest) := parsenum st.format
      ⟨st.p, st.argNum, rest, st.afterIndex⟩
  | _ => st

/-- One pass of the `formatLoop` of `p.doPrintf(format, a)` for the empty operand list
`a`: the printer afterwards and, unless the loop ends here, the operand number and the
position for the next pass. -/
def formatPass (p : pp) (argNum : Nat) (format : List Char) : pp × Option (Nat × List Char) :=
  let p := { p with goodArgNum := true }
  -- copy the text up to the next percent sign
  let p := p.writeString (format.takeWhile (fun c => c != '%'))
  match format.dropWhile (fun c => c != '%') with
  | [] => (p, none)
  | _ :: format =>
    -- flags; with no operand left the fast path for simple verbs is never taken
    let st : verbScan := ⟨p, argNum, format.dropWhile isFlag, false⟩
    let st := st.index
    let st := st.width
    let st := st.precision
    let st := if !st.afterIndex then st.index else st
    match st.format with
    | [] => (st.p.writeString noVerbString.data, none)
    | verb :: format =>
      let p :=
        if verb = '%' then st.p.writeString ['%']
        else if !st.p.goodArgNum then st.p.badArgNum verb
        else st.p.missingArg verb  -- `argNum >= len(a)`: no operand is ever left
      (p, some (st.argNum, format))

/-- The `formatLoop`, with fuel for the passes. Every pass consumes at least the percent
sign (`formatPass_length`), so fuel above the length of the format is never used up
(`doPrintfLoop_fuel`). -/
def doPrintfLoop : Nat → pp → Nat → List Char → pp
  | 0, p, _, _ => p
  | fuel + 1, p, argNum, format =>
    match formatPass p argNum format with
    | (p, none) => p
    | (p, some (argNum, format)) => doPrintfLoop fuel p argNum format

/-- Go's `p.doPrintf(format, a)` with `a` empty, from a new printer: the bytes printed. -/
def doPrintf (format : String) : String :=
  ⟨(doPrintfLoop (format.length + 1) ⟨[], true, false⟩ 0 format.data).buf⟩

/-- Go's `fmt.Fprintf(w, format)` without operands: formats and gives the result to
`w.Write`. -/
def Fprintf (w : http.ResponseWriter) (format : String) : http.ResponseWriter :=
  w.Write (doPrintf format)

end fmt

/-! ## net, time, net/http/httptest -/

namespace net

/-- Go's `net.Listener`: a socket bound to `address` (`l.Addr().String()`). -/
structure Listener where
  network : String
  address : String
deriving DecidableEq

end net

namespace time

/-- The constant `time.Second`, in nanoseconds. -/
def Second : Nat := 1000000000

end time

/-- What the construction of a server does to the outside world, in order. -/
inductive Event where
  /-- A call `net.Listen(network, address)` and whether it succeeded. -/
  | Listen (network address : String) (ok : Bool)
  /-- A call `time.Sleep(d)`, `d` in nanoseconds. -/
  | Sleep (d : Nat)
  /-- The start of the serving goroutine of an `httptest.Server` on its listener. -/
  | Serve (l : net.Listener)
deriving DecidableEq

/-- The event is a call of `net.Listen`. -/
def Event.isListen : Event → Bool
  | Event.Listen _ _ _ => true
  | _ => false

/-- The environment of `NewServer`. `Listen n network address` is the answer of
`net.Listen` to the call number `n` (from 0) that `NewServer` itself makes: a listener
or an error. `localListener` is the listener `httptest` obtains for itself on the
loopback address with a port of the system's choice. -/
structure Env where
  Listen : Nat → String → String → Except String net.Listener
  localListener : net.Listener

namespace httptest

/-- Go's `httptest.Server`: `URL` is empty until the server is started. -/
structure Server where
  URL : String
  Listener : net.Listener
deriving DecidableEq

/-- Go's `httptest.NewUnstartedServer(handler)`: the new server already owns a
listener, which `newLocalListener` opens with `net.Listen("tcp", "127.0.0.1:0")`. The
port is of the system's choice, so the address cannot be in use: this listen is taken
to succeed, and the panic of `newLocalListener` on its failure is not represented. -/
def NewUnstartedServer (env : Env) : List Event × Server :=
  ([Event.Listen "tcp" "127.0.0.1:0" true], ⟨"", env.localListener⟩)

/-- Go's `(*httptest.Server).Start`: panics on a started server, else sets the URL from
the listener's address and starts serving. -/
def Server.Start (srv : Server) : List Event × Except PanicValue Server :=
  if srv.URL ≠ "" then ([], .error (PanicValue.string "Server already started"))
  else ([Event.Serve srv.Listener], .ok { srv with URL := "http://" ++ srv.Listener.address })

/-- Go's `httptest.NewServer(handler)`: a new unstarted server, started. -/
def NewServer (env : Env) : List Event × Except PanicValue Server :=
  let (ev, srv) := NewUnstartedServer env
  let (ev', res) := srv.Start
  (ev ++ ev', res)

end httptest

/-! ## testutils -/

/-- The struct `ServerResponse`: a prerecorded server response for any API call. -/
structure ServerResponse where
  Code : Int
  Body : String
  Header : http.Header
deriving DecidableEq

/-- The struct `Server`. The pointer `server` is `none` while nil. The field `mu` is not
represented: see the conventions at the top. -/
structure Server where
  server : Option httptest.Server
  response : ServerResponse
  path : String
  method : String
  body : String
deriving DecidableEq

namespace Server

/-- The method `setMethod`. -/
def setMethod (s : Server) (method : String) : Server := { s with method := method }

/-- The method `setPath`. -/
def setPath (s : Server) (path : String) : Server := { s with path := path }

/-- The method `setBody`. -/
def setBody (s : Server) (body : String) : Server := { s with body := body }

/-- The method `SetResponse`. -/
def SetResponse (s : Server) (response : ServerResponse) : Server :=
  { s with response := response }

/-- The method `Method`. -/
def Method (s : Server) : String := s.method

/-- The method `Path`. -/
def Path (s : Server) : String := s.path

/-- The method `Body`. -/
def Body (s : Server) : String := s.body

/-- The method `URL`: the base URL of the server, `none` while `server` is nil. -/
def URL (s : Server) : Option String := s.server.map (fun srv => srv.URL)

/-- The loop `for k, v := range header { w.Header()[k] = v }`. -/
def copyHeader (header : http.Header) (w : http.ResponseWriter) : http.ResponseWriter :=
  header.entries.foldl (fun w kv => { w with header := w.header.set kv.1 kv.2 }) w

/-- The method `ServeHTTP`: the server afterwards, and the writer afterwards or the
panic that ended the handler. The deferred `r.Body.Close()` has no effect here. -/
def ServeHTTP (s : Server) (w : http.ResponseWriter) (r : http.Request) :
    Server × Except PanicValue http.ResponseWriter :=
  let (body, _) := ioutil.ReadAll r.Body
  -- Record request.
  let s := s.setMethod r.Method
  let s := s.setPath r.URL.Path
  let s := s.setBody body
  -- Send out prerecorded response.
  let w := copyHeader s.response.Header w
  match w.WriteHeader s.response.Code with
  | .error p => (s, .error p)
  | .ok w => (s, .ok (fmt.Fprintf w s.response.Body))

/-- One request handled to completion: the HTTP server calls the handler with a new
writer. -/
def handle (s : Server) (r : http.Request) :
    Server × Except PanicValue http.ResponseWriter :=
  s.ServeHTTP http.ResponseWriter.fresh r

end Server

/-- A value of type `interface{}`, by its dynamic type. -/
inductive Any where
  | string (s : String)
  | int (n : Int)
  | bool (b : Bool)
  | nil
deriving DecidableEq

/-- The function `NewServer(addr ...interface{})`: the events in order, and the server
or the panic. -/
def NewServer (env : Env) (addr : List Any) : List Event × Except PanicValue Server :=
  let s : Server :=
    { server := none
      response := { Code := http.StatusOK, Body := "", Header := http.Header.empty }
      path := "", method := "", body := "" }
  match addr with
  | [] =>
    -- NewServer().
    match httptest.NewServer env with
    | (ev, .error p) => (ev, .error p)
    | (ev, .ok srv) => (ev, .ok { s with server := some srv })
  | a :: _ =>
    -- NewServer(addr).
    let (ev, srv) := httptest.NewUnstartedServer env
    match a with
    | Any.string address =>
      let start (ev : List Event) (listener : net.Listener) :
          List Event × Except PanicValue Server :=
        match ({ srv with Listener := listener } : httptest.Server).Start with
        | (ev', .error p) => (ev ++ ev', .error p)
        | (ev', .ok srv) => (ev ++ ev', .ok { s with server := some srv })
      match env.Listen 0 "tcp" address with
      | .ok listener => start (ev ++ [Event.Listen "tcp" address true]) listener
      | .error _ =>
        let ev := ev ++ [Event.Listen "tcp" address false, Event.Sleep (3 * time.Second)]
        match env.Listen 1 "tcp" address with
        | .error err => (ev ++ [Event.Listen "tcp" address false], .error (PanicValue.error err))
        | .ok listener => start (ev ++ [Event.Listen "tcp" address true]) listener
    | _ => (ev, .error (PanicValue.string "can accept only strings as addr"))

/-! ## Sequences of calls -/

/-- A call on a server from outside: a request handled to completion, or `SetResponse`. -/
inductive Call where
  | ServeHTTP (r : http.Request)
  | SetResponse (response : ServerResponse)

/-- The server after one call. -/
def Server.call (s : Server) : Call → Server
  | Call.ServeHTTP r => (s.handle r).1
  | Call.SetResponse response => s.SetResponse response

/-- The server after a sequence of calls, one after another. -/
def Server.calls (s : Server) (cs : List Call) : Server := cs.foldl Server.call s

/-! ## Interleavings

Handlers run concurrently with each other and with the test. An atomic step is one
statement of `ServeHTTP`: the read of the body, each of the three setters (one critical
section each), and each of the three reads of `s.response` (which take no lock). -/

/-- The program point of a handler: the statement it executes next. -/
inductive PC where
  | readAll | setMethod | setPath | setBody | copyHeader | writeHeader | fprintf
  | returned
  | panicked (p : PanicValue)
deriving DecidableEq

/-- A running call of `ServeHTTP`: its request, its writer, its local `body`, its
program point. -/
structure Handler where
  r : http.Request
  w : http.ResponseWriter
  body : String
  pc : PC
deriving DecidableEq

/-- The next statement of a handler on the shared server. -/
def Handler.step (s : Server) (h : Handler) : Server × Handler :=
  match h.pc with
  | PC.readAll => (s, { h with body := (ioutil.ReadAll h.r.Body).1, pc := PC.setMethod })
  | PC.setMethod => (s.setMethod h.r.Method, { h with pc := PC.setPath })
  | PC.setPath => (s.setPath h.r.URL.Path, { h with pc := PC.setBody })
  | PC.setBody => (s.setBody h.body, { h with pc := PC.copyHeader })
  | PC.copyHeader =>
    (s, { h with w := Server.copyHeader s.response.Header h.w, pc := PC.writeHeader })
  | PC.writeHeader =>
    match h.w.WriteHeader s.response.Code with
    | .error p => (s, { h with pc := PC.panicked p })
    | .ok w => (s, { h with w := w, pc := PC.fprintf })
  | PC.fprintf => (s, { h with w := fmt.Fprintf h.w s.response.Body, pc := PC.returned })
  | PC.returned => (s, h)
  | PC.panicked _ => (s, h)

/-- The shared server and all handlers started so far. -/
structure Config where
  s : Server
  handlers : List Handler
deriving DecidableEq

/-- A scheduling choice: a request arrives and its handler starts; handler number `i`
executes its next statement; the test calls `SetResponse`. -/
inductive Step where
  | request (r : http.Request)
  | handler (i : Nat)
  | SetResponse (response : ServerResponse)

/-- One step of the system. -/
def Config.step (c : Config) : Step → Config
  | Step.request r =>
    { c with handlers := c.handlers ++ [⟨r, http.ResponseWriter.fresh, "", PC.readAll⟩] }
  | Step.handler i =>
    match c.handlers.get? i with
    | none => c
    | some h =>
      let (s, h) := h.step c.s
      { s := s, handlers := c.handlers.set i h }
  | Step.SetResponse response => { c with s := c.s.SetResponse response }

/-- The system after a schedule. -/
def Config.run (c : Config) (steps : List Step) : Config := steps.foldl Config.step c

/-- The requests that arrive in a schedule. -/
def requests : List Step → List http.Request
  | [] => []
  | Step.request r :: rest => r :: requests rest
  | _ :: rest => requests rest

/-- The invariant of the interleaved system: the local `body` of a handler past its
first statement is what `ReadAll` returned, and each recorded field is the initial one
or the one of a request that has arrived. -/
def Inv (m0 p0 b0 : String) (c : Config) : Prop :=
  (∀ h ∈ c.handlers, h.pc = PC.readAll ∨ h.body = (ioutil.ReadAll h.r.Body).1)
    ∧ c.s.method ∈ m0 :: c.handlers.map (fun h => h.r.Method)
    ∧ c.s.path ∈ p0 :: c.handlers.map (fun h => h.r.URL.Path)
    ∧ c.s.body ∈ b0 :: c.handlers.map (fun h => (ioutil.ReadAll h.r.Body).1)

/-! ## Lemmas on header maps and on the handler -/

namespace http

theorem setEntry_of_not_mem (k : String) (v : List String) :
    ∀ l : List (String × List String), k ∉ l.map Prod.fst → setEntry k v l = l ++ [(k, v)] := by
  intro l
  induction l with
  | nil => intro _; rfl
  | cons a rest ih =>
    intro h
    simp only [List.map_cons, List.mem_cons, not_or] at h
    have hne : ¬ a.1 = k := fun e => h.1 e.symm
    simp [setEntry, hne, ih h.2]

theorem Header.ext_entries {h1 h2 : Header} (e : h1.entries = h2.entries) : h1 = h2 := by
  cases h1; cases h2; cases e; rfl

theorem Header.get_del (h : Header) (c k : String) :
    (h.del c).get k = if k = c then none else h.get k := by
  unfold Header.get Header.del
  simp only
  induction h.entries with
  | nil => simp
  | cons a rest ih =>
    obtain ⟨a1, a2⟩ := a
    by_cases ha : a1 = c
    · subst ha
      by_cases hk : k = a1
      · subst hk; simpa using ih
      · have hbeq : (k == a1) = false := by simpa using hk
        simp only [List.filter_cons, bne_self_eq_false, Bool.false_eq_true, if_false,
          List.lookup_cons, hbeq]
        simpa [hk] using ih
    · have hne : (a1 != c) = true := by simpa using ha
      simp only [List.filter_cons, hne, if_true, List.lookup_cons]
      by_cases hk : k = a1
      · subst hk
        simp [ha]
      · have hbeq : (k == a1) = false := by simpa using hk
        simp only [hbeq]
        exact ih

/-- Reading the `Content-Length` header changes nothing but the declared length and,
for an invalid value, that one entry of the header map. -/
theorem ResponseWriter.readContentLength_spec (w : ResponseWriter) :
    w.readContentLength.status = w.status
      ∧ w.readContentLength.informational = w.informational
      ∧ w.readContentLength.written = w.written
      ∧ w.readContentLength.body = w.body
      ∧ (∀ k, k ≠ "Content-Length" → w.readContentLength.header.get k = w.header.get k)
      ∧ (∀ k v, w.readContentLength.header.get k = some v → w.header.get k = some v)
      ∧ (w.header.getValue "Content-Length" = "" → w.readContentLength = w) := by
  have hdel : (∀ k, k ≠ "Content-Length" →
        (w.header.del "Content-Length").get k = w.header.get k)
      ∧ (∀ k v, (w.header.del "Content-Length").get k = some v → w.header.get k = some v) := by
    constructor
    · intro k hk; rw [Header.get_del]; simp [hk]
    · intro k v hkv
      rw [Header.get_del] at hkv
      by_cases hk : k = "Content-Length"
      · simp [hk] at hkv
      · simpa [hk] using hkv
  unfold ResponseWriter.readContentLength
  simp only
  split
  · rename_i hcl
    split
    · split
      · exact ⟨rfl, rfl, rfl, rfl, fun _ _ => rfl, fun _ _ h => h, fun h => absurd h hcl⟩
      · exact ⟨rfl, rfl, rfl, rfl, hdel.1, hdel.2, fun h => absurd h hcl⟩
    · exact ⟨rfl, rfl, rfl, rfl, hdel.1, hdel.2, fun h => absurd h hcl⟩
  · exact ⟨rfl, rfl, rfl, rfl, fun _ _ => rfl, fun _ _ h => h, fun _ => rfl⟩

theorem utf8ByteSize_eq_zero (data : String) (hz : data.utf8ByteSize = 0) : data = "" := by
  apply String.ext
  cases hdata : data.data with
  | nil => rfl
  | cons c cs =>
    have hd : data = ⟨c :: cs⟩ := by rw [← hdata]
    rw [hd] at hz
    simp only [String.utf8ByteSize, String.utf8ByteSize.go] at hz
    have := Char.utf8Size_pos c
    omega

/-- A `Write` on a writer with a written header and an empty body so far. -/
theorem ResponseWriter.Write_spec (w : ResponseWriter) (code : Int) (data : String)
    (hst : w.status = some code) (hbody : w.body = "") :
    (w.Write data).header = w.header
      ∧ (w.Write data).status = some code
      ∧ (w.Write data).informational = w.informational
      ∧ (w.contentLength = none → bodyAllowedForStatus code = true → (w.Write data).body = data)
      ∧ (bodyAllowedForStatus code = false → (w.Write data).body = "") := by
  have happ : w.body ++ data = data := by rw [hbody]; exact String.ext (by simp)
  by_cases hz : data.utf8ByteSize = 0
  · have hd := utf8ByteSize_eq_zero data hz
    have e : w.Write data = w := by
      unfold ResponseWriter.Write
      simp [hst, hz]
    rw [e]
    refine ⟨rfl, hst, rfl, ?_, fun _ => hbody⟩
    intro _ _; rw [hbody, hd]
  · by_cases hb : bodyAllowedForStatus code = true
    · cases hcl : w.contentLength with
      | none =>
        have e : w.Write data
            = { w with written := w.written + data.utf8ByteSize, body := w.body ++ data } := by
          unfold ResponseWriter.Write
          simp [hst, hz, hb, hcl]
        rw [e]
        refine ⟨rfl, hst, rfl, fun _ _ => happ, ?_⟩
        intro h; rw [hb] at h; cases h
      | some cl =>
        by_cases hgt : w.written + data.utf8ByteSize > cl
        · have e : w.Write data = { w with written := w.written + data.utf8ByteSize } := by
            unfold ResponseWriter.Write
            simp [hst, hz, hb, hcl, hgt]
          rw [e]
          refine ⟨rfl, hst, rfl, ?_, ?_⟩
          · intro h; cases h
          · intro h; rw [hb] at h; cases h
        · have e : w.Write data
              = { w with written := w.written + data.utf8ByteSize, body := w.body ++ data } := by
            unfold ResponseWriter.Write
            simp [hst, hz, hb, hcl, hgt]
          rw [e]
          refine ⟨rfl, hst, rfl, ?_, ?_⟩
          · intro h; cases h
          · intro h; rw [hb] at h; cases h
    · have hb' : bodyAllowedForStatus code = false := by simpa using hb
      have e : w.Write data = w := by
        unfold ResponseWriter.Write
        simp [hst, hz, hb']
      rw [e]
      refine ⟨rfl, hst, rfl, ?_, fun _ => hbody⟩
      intro _ h; rw [hb'] at h; cases h

/-- The one `Write` of the handler on a writer whose header is unwritten (after an
interim response): the header is written with status 200. -/
theorem ResponseWriter.Write_of_unwritten (header : Header) (inf : List Int) (data : String) :
    (∀ k, k ≠ "Content-Length" →
        (ResponseWriter.Write ⟨header, none, inf, none, 0, ""⟩ data).header.get k
          = header.get k)
      ∧ (∀ k v, (ResponseWriter.Write ⟨header, none, inf, none, 0, ""⟩ data).header.get k
          = some v → header.get k = some v)
      ∧ (header.getValue "Content-Length" = "" →
          (ResponseWriter.Write ⟨header, none, inf, none, 0, ""⟩ data).header = header)
      ∧ (ResponseWriter.Write ⟨header, none, inf, none, 0, ""⟩ data).status = some 200
      ∧ (ResponseWriter.Write ⟨header, none, inf, none, 0, ""⟩ data).informational = inf
      ∧ (header.getValue "Content-Length" = "" →
          (ResponseWriter.Write ⟨header, none, inf, none, 0, ""⟩ data).body = data) := by
  have hr := ResponseWriter.readContentLength_spec ⟨header, some StatusOK, inf, none, 0, ""⟩
  obtain ⟨h1, h2, _, h4, h5, h6, h7⟩ := hr
  have hb : bodyAllowedForStatus StatusOK = true := by decide
  have hw := ResponseWriter.Write_spec
    (ResponseWriter.readContentLength ⟨header, some StatusOK, inf, none, 0, ""⟩)
    StatusOK data h1 h4
  -- `Write` on the unwritten header is `Write` after the header is written with 200
  have hunfold : ResponseWriter.Write ⟨header, none, inf, none, 0, ""⟩ data
      = ResponseWriter.Write
          (ResponseWriter.readContentLength ⟨header, some StatusOK, inf, none, 0, ""⟩) data := by
    conv => rhs; unfold ResponseWriter.Write
    conv => lhs; unfold ResponseWriter.Write
    simp only [h1]
  rw [hunfold]
  obtain ⟨w1, w2, w3, w4, _⟩ := hw
  refine ⟨?_, ?_, ?_, w2, ?_, ?_⟩
  · intro k hk; rw [w1]; exact h5 k hk
  · intro k v hkv; rw [w1] at hkv; exact h6 k v hkv
  · intro hcl; rw [w1, h7 hcl]
  · rw [w3, h2]
  · intro hcl
    apply w4 _ hb
    rw [h7 hcl]

/-- The one `Write` of the handler on a writer whose header was written by
`WriteHeader` with a code that is not informational. -/
theorem ResponseWriter.Write_of_written (header : Header) (code : Int) (data : String) :
    (∀ k, k ≠ "Content-Length" →
        (ResponseWriter.Write (ResponseWriter.readContentLength
          ⟨header, some code, [], none, 0, ""⟩) data).header.get k = header.get k)
      ∧ (∀ k v, (ResponseWriter.Write (ResponseWriter.readContentLength
          ⟨header, some code, [], none, 0, ""⟩) data).header.get k = some v →
          header.get k = some v)
      ∧ (header.getValue "Content-Length" = "" →
          (ResponseWriter.Write (ResponseWriter.readContentLength
            ⟨header, some code, [], none, 0, ""⟩) data).header = header)
      ∧ (ResponseWriter.Write (ResponseWriter.readContentLength
          ⟨header, some code, [], none, 0, ""⟩) data).status = some code
      ∧ (ResponseWriter.Write (ResponseWriter.readContentLength
          ⟨header, some code, [], none, 0, ""⟩) data).informational = []
      ∧ (header.getValue "Content-Length" = "" → bodyAllowedForStatus code = true →
          (ResponseWriter.Write (ResponseWriter.readContentLength
            ⟨header, some code, [], none, 0, ""⟩) data).body = data)
      ∧ (bodyAllowedForStatus code = false →
          (ResponseWriter.Write (ResponseWriter.readContentLength
            ⟨header, some code, [], none, 0, ""⟩) data).body = "") := by
  have hr := ResponseWriter.readContentLength_spec ⟨header, some code, [], none, 0, ""⟩
  obtain ⟨h1, h2, _, h4, h5, h6, h7⟩ := hr
  obtain ⟨w1, w2, w3, w4, w5⟩ := ResponseWriter.Write_spec
    (ResponseWriter.readContentLength ⟨header, some code, [], none, 0, ""⟩) code data h1 h4
  refine ⟨?_, ?_, ?_, w2, ?_, ?_, w5⟩
  · intro k hk; rw [w1]; exact h5 k hk
  · intro k v hkv; rw [w1] at hkv; exact h6 k v hkv
  · intro hcl; rw [w1, h7 hcl]
  · rw [w3, h2]
  · intro hcl hb
    apply w4 _ hb
    rw [h7 hcl]

end http

namespace Server

theorem copyHeader_loop (l : List (String × List String)) :
    ∀ w : http.ResponseWriter, (w.header.entries.map Prod.fst ++ l.map Prod.fst).Nodup →
      (l.foldl (fun w kv => { w with header := w.header.set kv.1 kv.2 }) w).header.entries
          = w.header.entries ++ l
        ∧ (l.foldl (fun w kv => { w with header := w.header.set kv.1 kv.2 }) w).status
          = w.status
        ∧ (l.foldl (fun w kv => { w with header := w.header.set kv.1 kv.2 }) w).written
          = w.written
        ∧ (l.foldl (fun w kv => { w with header := w.header.set kv.1 kv.2 }) w).informational
          = w.informational
        ∧ (l.foldl (fun w kv => { w with header := w.header.set kv.1 kv.2 }) w).contentLength
          = w.contentLength
        ∧ (l.foldl (fun w kv => { w with header := w.header.set kv.1 kv.2 }) w).body
          = w.body := by
  induction l with
  | nil => intro w _; simp
  | cons a rest ih =>
    intro w hw
    have hk : a.1 ∉ w.header.entries.map Prod.fst := by
      intro hmem
      rw [List.map_cons, List.nodup_append] at hw
      exact hw.2.2 hmem (List.mem_cons_self _ _)
    have hset : (w.header.set a.1 a.2).entries = w.header.entries ++ [a] := by
      show http.setEntry a.1 a.2 w.header.entries = _
      rw [http.setEntry_of_not_mem _ _ _ hk]
    have hw' : (((w.header.set a.1 a.2).entries).map Prod.fst ++ rest.map Prod.fst).Nodup := by
      rw [hset]
      simpa [List.map_append, List.append_assoc] using hw
    have := ih { w with header := w.header.set a.1 a.2 } hw'
    simp only [List.foldl_cons]
    refine ⟨?_, this.2.1, this.2.2.1, this.2.2.2.1, this.2.2.2.2.1, this.2.2.2.2.2⟩
    rw [this.1, hset, List.append_assoc]
    rfl

/-- Copying a header map into the empty map of a new writer gives that map. -/
theorem copyHeader_fresh (header : http.Header) :
    copyHeader header http.ResponseWriter.fresh
      = { http.ResponseWriter.fresh with header := header } := by
  have h := copyHeader_loop header.entries http.ResponseWriter.fresh
    (by simpa [http.ResponseWriter.fresh, http.Header.empty] using header.nodup)
  unfold copyHeader
  generalize (header.entries.foldl
    (fun w kv => { w with header := w.header.set kv.1 kv.2 }) http.ResponseWriter.fresh) = w' at h
  obtain ⟨h1, h2, h3, h4, h5, h6⟩ := h
  cases w' with
  | mk hd st inf cl wr bd =>
    simp only [http.ResponseWriter.fresh, http.Header.empty, List.nil_append]
      at h1 h2 h3 h4 h5 h6
    subst h2; subst h3; subst h4; subst h5; subst h6
    simp only [http.ResponseWriter.fresh]
    congr 1
    exact http.Header.ext_entries h1

theorem copyHeader_new (header : http.Header) :
    copyHeader header ⟨http.Header.empty, none, [], none, 0, ""⟩
      = ⟨header, none, [], none, 0, ""⟩ :=
  copyHeader_fresh header

theorem lookup_eq_some_iff_mem (k : String) (v : List String) :
    ∀ l : List (String × List String), (l.map Prod.fst).Nodup →
      (l.lookup k = some v ↔ (k, v) ∈ l) := by
  intro l
  induction l with
  | nil => intro _; simp
  | cons a rest ih =>
    intro hl
    obtain ⟨a1, a2⟩ := a
    rw [List.map_cons, List.nodup_cons] at hl
    by_cases hk : k = a1
    · subst hk
      have hnot : ∀ v', (k, v') ∉ rest := fun v' hmem =>
        hl.1 (by simpa using List.mem_map_of_mem Prod.fst hmem)
      simp only [List.lookup_cons, beq_self_eq_true, Option.some.injEq, List.mem_cons,
        Prod.mk.injEq, true_and]
      constructor
      · intro h; exact Or.inl h.symm
      · intro h
        rcases h with h | h
        · exact h.symm
        · exact absurd h (hnot v)
    · have hbeq : (k == a1) = false := by simpa using hk
      simp only [List.lookup_cons, hbeq, List.mem_cons, Prod.mk.injEq, hk, false_and,
        false_or]
      exact ih hl.2

/-- The order in which `range` visits the map does not matter: whatever the order, the
new writer ends with the same value list under every header name. -/
theorem copyHeader_any_order (header : http.Header) (order : List (String × List String))
    (hperm : order.Perm header.entries) (k : String) :
    (order.foldl (fun w kv => { w with header := w.header.set kv.1 kv.2 })
        http.ResponseWriter.fresh).header.get k
      = (copyHeader header http.ResponseWriter.fresh).header.get k := by
  have hnodup : (order.map Prod.fst).Nodup :=
    (hperm.map Prod.fst).nodup_iff.mpr header.nodup
  have h := (copyHeader_loop order http.ResponseWriter.fresh
    (by simpa [http.ResponseWriter.fresh, http.Header.empty] using hnodup)).1
  rw [copyHeader_fresh]
  simp only [http.ResponseWriter.fresh, http.Header.empty, List.nil_append] at h
  simp only [http.Header.get, http.ResponseWriter.fresh, http.Header.empty, h]
  apply Option.ext
  intro v
  simp only [Option.mem_def]
  rw [lookup_eq_some_iff_mem k v order hnodup,
    lookup_eq_some_iff_mem k v header.entries header.nodup]
  exact hperm.mem_iff

/-- The server after a request: the three recorded fields are overwritten, nothing else. -/
theorem handle_fst (s : Server) (r : http.Request) :
    (s.handle r).1 =
      { s with method := r.Method, path := r.URL.Path, body := (ioutil.ReadAll r.Body).1 } := by
  unfold handle ServeHTTP
  simp only [setMethod, setPath, setBody]
  split <;> rfl

/-- The outcome of a request: the header map is copied to the new writer, then the
status code and the body go to `WriteHeader` and `Fprintf`. -/
theorem handle_snd_writer (s : Server) (r : http.Request) :
    (s.handle r).2 =
      match (⟨s.response.Header, none, [], none, 0, ""⟩ : http.ResponseWriter).WriteHeader
          s.response.Code with
      | .error p => .error p
      | .ok w => .ok (fmt.Fprintf w s.response.Body) := by
  unfold handle ServeHTTP
  simp only [setMethod, setPath, setBody, http.ResponseWriter.fresh, copyHeader_new]
  split <;> simp_all

/-- The outcome of a request is a panic exactly when the status code is not accepted. -/
theorem handle_snd_not_accepted (s : Server) (r : http.Request)
    (hc : http.checkWriteHeaderCode s.response.Code = false) :
    (s.handle r).2 = .error (PanicValue.invalidWriteHeaderCode s.response.Code) := by
  rw [handle_snd_writer]
  simp [http.ResponseWriter.WriteHeader, hc]

/-- The outcome of a request when the status code is accepted. The handler returns, and
the header map of the writer is the configured one up to an invalid `Content-Length`.
A code that is not informational is the status; an informational code is sent as an
interim response and the status is 200. Without a `Content-Length` header the body is
written when the status allows one; with a status that allows none nothing is written. -/
theorem handle_snd_accepted (s : Server) (r : http.Request)
    (hc : http.checkWriteHeaderCode s.response.Code = true) :
    ∃ w, (s.handle r).2 = .ok w
      ∧ (∀ k, k ≠ "Content-Length" → w.header.get k = s.response.Header.get k)
      ∧ (∀ k v, w.header.get k = some v → s.response.Header.get k = some v)
      ∧ (s.response.Header.getValue "Content-Length" = "" → w.header = s.response.Header)
      ∧ (http.isInformational s.response.Code = false →
          w.status = some s.response.Code ∧ w.informational = [])
      ∧ (http.isInformational s.response.Code = true →
          w.status = some 200 ∧ w.informational = [s.response.Code])
      ∧ (s.response.Header.getValue "Content-Length" = "" →
          (http.isInformational s.response.Code = true
            ∨ http.bodyAllowedForStatus s.response.Code = true) →
          w.body = fmt.doPrintf s.response.Body)
      ∧ (http.isInformational s.response.Code = false →
          http.bodyAllowedForStatus s.response.Code = false → w.body = "") := by
  rw [handle_snd_writer]
  have hc' : (!http.checkWriteHeaderCode s.response.Code) = false := by simp [hc]
  by_cases hi : http.isInformational s.response.Code = true
  · -- interim response, then the header is written by `Write`
    simp only [http.ResponseWriter.WriteHeader, hc', hi, if_true, Bool.false_eq_true, if_false,
      List.nil_append, fmt.Fprintf]
    have hw := http.ResponseWriter.Write_of_unwritten s.response.Header [s.response.Code]
      (fmt.doPrintf s.response.Body)
    refine ⟨_, rfl, hw.1, hw.2.1, hw.2.2.1, ?_, ?_, ?_, ?_⟩
    · intro h; cases h
    · intro _; exact ⟨hw.2.2.2.1, hw.2.2.2.2.1⟩
    · intro hcl _; exact hw.2.2.2.2.2 hcl
    · intro h; cases h
  · have hi' : http.isInformational s.response.Code = false := by simpa using hi
    simp only [http.ResponseWriter.WriteHeader, hc', hi', if_true, Bool.false_eq_true,
      if_false, fmt.Fprintf]
    have hw := http.ResponseWriter.Write_of_written s.response.Header s.response.Code
      (fmt.doPrintf s.response.Body)
    refine ⟨_, rfl, hw.1, hw.2.1, hw.2.2.1, ?_, ?_, ?_, ?_⟩
    · intro _; exact ⟨hw.2.2.2.1, hw.2.2.2.2.1⟩
    · intro h; cases h
    · intro hcl hor
      rcases hor with h | h
      · cases h
      · exact hw.2.2.2.2.2.1 hcl h
    · intro _ hb; exact hw.2.2.2.2.2.2 hb

end Server

namespace fmt

theorem parsenumLoop_length (s : List Char) :
    ∀ (num : Nat) (isnum : Bool), (parsenumLoop num isnum s).2.2.length ≤ s.length := by
  induction s with
  | nil => intro num isnum; simp [parsenumLoop]
  | cons c cs ih =>
    intro num isnum
    unfold parsenumLoop
    split
    · split
      · simp
      · exact Nat.le_succ_of_le (ih _ _)
    · exact Nat.le_refl _

theorem argNumber_length (p : pp) (argNum : Nat) (format : List Char) (numArgs : Nat) :
    (argNumber p argNum format numArgs).2.2.1.length ≤ format.length := by
  unfold argNumber
  split
  · simp only
    split <;> simp [List.length_drop]
  · exact Nat.le_refl _

theorem verbScan.index_length (st : verbScan) : st.index.format.length ≤ st.format.length :=
  argNumber_length st.p st.argNum st.format 0

theorem verbScan.width_length (st : verbScan) : st.width.format.length ≤ st.format.length := by
  unfold verbScan.width
  split
  · rename_i rest h; rw [h]; simp
  · exact parsenumLoop_length _ _ _

theorem verbScan.precision_length (st : verbScan) :
    st.precision.format.length ≤ st.format.length := by
  unfold verbScan.precision
  split
  · rename_i c rest h
    rw [h]
    have h1 := verbScan.index_length
      ⟨if st.afterIndex then { st.p with goodArgNum := false } else st.p, st.argNum,
        c :: rest, st.afterIndex⟩
    simp only at h1
    simp only
    split
    · rename_i rest' h'
      rw [h'] at h1
      simp only [List.length_cons] at h1 ⊢
      omega
    · have h2 := parsenumLoop_length (verbScan.index
        ⟨if st.afterIndex then { st.p with goodArgNum := false } else st.p, st.argNum,
          c :: rest, st.afterIndex⟩).format 0 false
      simp only [List.length_cons] at h1 ⊢
      exact Nat.le_succ_of_le (Nat.le_trans h2 h1)
  · exact Nat.le_refl _

/-- A pass that does not end the loop consumes at least one character of the format. -/
theorem formatPass_length (p : pp) (argNum : Nat) (format : List Char) (p' : pp)
    (argNum' : Nat) (format' : List Char)
    (h : formatPass p argNum format = (p', some (argNum', format'))) :
    format'.length < format.length := by
  unfold formatPass at h
  simp only at h
  split at h
  · simp at h
  · rename_i c rest hdrop
    have h0 : rest.length < format.length := by
      have := (List.dropWhile_sublist (l := format) (fun c => c != '%')).length_le
      rw [hdrop] at this
      simpa using this
    have h1 : (rest.dropWhile isFlag).length ≤ rest.length :=
      (List.dropWhile_sublist isFlag).length_le
    generalize hst0 : (⟨{ p with goodArgNum := true }.writeString
        (format.takeWhile (fun c => c != '%')), argNum, rest.dropWhile isFlag, false⟩
          : verbScan) = st0 at h
    have h2 : st0.format.length ≤ rest.length := by rw [← hst0]; exact h1
    have h3 := verbScan.index_length st0
    have h4 := verbScan.width_length st0.index
    have h5 := verbScan.precision_length st0.index.width
    generalize hst3 : st0.index.width.precision = st3 at h h5
    have h6 : (if !st3.afterIndex then st3.index else st3).format.length
        ≤ st3.format.length := by
      split
      · exact verbScan.index_length st3
      · exact Nat.le_refl _
    generalize hst4 : (if !st3.afterIndex then st3.index else st3) = st4 at h h6
    split at h
    · simp at h
    · rename_i verb rest' hfmt
      simp only [Prod.mk.injEq, Option.some.injEq] at h
      rw [hfmt] at h6
      rw [← h.2.2]
      simp only [List.length_cons] at h6
      omega

/-- Fuel above the length of the format is enough: more fuel prints the same. -/
theorem doPrintfLoop_fuel :
    ∀ (fuel fuel' : Nat) (p : pp) (argNum : Nat) (format : List Char),
      format.length < fuel → format.length < fuel' →
      doPrintfLoop fuel p argNum format = doPrintfLoop fuel' p argNum format := by
  intro fuel
  induction fuel with
  | zero => intro fuel' p argNum format h; omega
  | succ n ih =>
    intro fuel' p argNum format h h'
    cases fuel' with
    | zero => omega
    | succ m =>
      unfold doPrintfLoop
      cases hpass : formatPass p argNum format with
      | mk p' next =>
        cases next with
        | none => rfl
        | some an =>
          obtain ⟨argNum', format'⟩ := an
          have hlen := formatPass_length p argNum format p' argNum' format' hpass
          exact ih m p' argNum' format' (by omega) (by omega)

/-- A format without a percent sign is printed as it is. -/
theorem doPrintf_of_no_percent (format : String) (h : '%' ∉ format.data) :
    doPrintf format = format := by
  have h1 : ∀ l : List Char, '%' ∉ l → l.takeWhile (fun c => c != '%') = l := by
    intro l hl
    rw [List.takeWhile_eq_self_iff]
    intro c hc
    have : c ≠ '%' := fun e => hl (e ▸ hc)
    simpa using this
  have h2 : ∀ l : List Char, '%' ∉ l → l.dropWhile (fun c => c != '%') = [] := by
    intro l hl
    rw [List.dropWhile_eq_nil_iff]
    intro c hc
    have : c ≠ '%' := fun e => hl (e ▸ hc)
    simpa using this
  unfold doPrintf
  simp only [doPrintfLoop, formatPass, h1 _ h, h2 _ h, pp.writeString, List.nil_append]

end fmt

/-! ## The claims -/

/-- C1. After any sequence of calls whose last request is `q` (earlier calls are
arbitrary requests and `SetResponse` calls, later calls are `SetResponse` calls only),
`Method()`, `Path()` and `Body()` return the method and the URL path of `q` and all
the bytes its body reader delivered, which is the full body when the read ends at EOF;
nothing of an earlier request is left. -/
theorem calls_record_last_request (s : Server) (pre : List Call) (q : http.Request)
    (post : List ServerResponse) :
    (s.calls (pre ++ Call.ServeHTTP q :: post.map Call.SetResponse)).Method = q.Method
      ∧ (s.calls (pre ++ Call.ServeHTTP q :: post.map Call.SetResponse)).Path = q.URL.Path
      ∧ (s.calls (pre ++ Call.ServeHTTP q :: post.map Call.SetResponse)).Body
          = String.join q.Body.chunks
      ∧ (s.calls (pre ++ Call.ServeHTTP q :: post.map Call.SetResponse)).Body.data
          = (q.Body.chunks.map String.data).flatten := by
  have hpost : ∀ (post : List ServerResponse) (t : Server),
      (t.calls (post.map Call.SetResponse)).method = t.method
        ∧ (t.calls (post.map Call.SetResponse)).path = t.path
        ∧ (t.calls (post.map Call.SetResponse)).body = t.body := by
    intro post
    induction post with
    | nil => intro t; exact ⟨rfl, rfl, rfl⟩
    | cons r rest ih =>
      intro t
      have := ih (t.SetResponse r)
      simpa [Server.calls, Server.call, Server.SetResponse] using this
  have hjoin : ∀ (l : List String) (acc : String),
      (l.foldl (fun buf chunk => buf ++ chunk) acc).data
        = acc.data ++ (l.map String.data).flatten := by
    intro l
    induction l with
    | nil => intro acc; simp
    | cons c rest ih => intro acc; simp [ih, String.data_append]
  have hsplit : s.calls (pre ++ Call.ServeHTTP q :: post.map Call.SetResponse)
      = (((s.calls pre).handle q).1).calls (post.map Call.SetResponse) := by
    simp [Server.calls, Server.call, List.foldl_append]
  obtain ⟨h1, h2, h3⟩ := hpost post (((s.calls pre).handle q).1)
  rw [hsplit]
  simp only [Server.Method, Server.Path, Server.Body]
  rw [h1, h2, h3, Server.handle_fst]
  refine ⟨rfl, rfl, rfl, ?_⟩
  show (q.Body.chunks.foldl (fun buf chunk => buf ++ chunk) "").data = _
  rw [hjoin]
  rfl

/-- C2, as stated, fails at an informational status code. The HTTP layer accepts 103, but
sends it as an interim response and leaves the header unwritten; the `Write` of
`Fprintf` then writes the header with status 200. -/
theorem handle_informational_code :
    http.checkWriteHeaderCode 103 = true
      ∧ (((⟨none, ⟨200, "", http.Header.empty⟩, "", "", ""⟩ : Server).SetResponse
          ⟨103, "x", http.Header.empty⟩).handle ⟨"GET", ⟨"/"⟩, ⟨[], none⟩⟩).2
        = .ok ⟨http.Header.empty, some 200, [103], none, 1, "x"⟩ := by
  decide

/-- C2, amended. After `SetResponse(r)` with a status code the HTTP layer accepts, the
handler returns for any request `q`, and under every header name of `r.Header` the
outgoing header map holds the value list of `r.Header` (a `Content-Length` entry apart,
which the HTTP layer reads itself; without such an entry the outgoing map is all of
`r.Header`). When `r.Code` is not an informational code the response has status code
`r.Code`. When it is one, `r.Code` is sent as an interim response and the response has
status code 200. -/
theorem SetResponse_sets_status_and_headers (s : Server) (r : ServerResponse)
    (q : http.Request) (hcode : http.checkWriteHeaderCode r.Code = true) :
    ∃ w, ((s.SetResponse r).handle q).2 = .ok w
      ∧ (∀ k v, k ≠ "Content-Length" → r.Header.get k = some v → w.header.get k = some v)
      ∧ (r.Header.getValue "Content-Length" = "" →
          ∀ k v, r.Header.get k = some v → w.header.get k = some v)
      ∧ (http.isInformational r.Code = false → w.status = some r.Code)
      ∧ (http.isInformational r.Code = true →
          w.informational = [r.Code] ∧ w.status = some 200) := by
  obtain ⟨w, h1, h2, _, h4, h5, h6, _⟩ := Server.handle_snd_accepted (s.SetResponse r) q hcode
  refine ⟨w, h1, ?_, ?_, fun h => (h5 h).1, fun h => ⟨(h6 h).2, (h6 h).1⟩⟩
  · intro k v hk hkv
    rw [h2 k hk]
    exact hkv
  · intro hcl k v hkv
    rw [h4 hcl]
    exact hkv

/-- The instance of amended C2 in the documentation of `NewServer`: status 404, body `{}`
and `Content-Type: application/json` give status 404 and that header. -/
theorem SetResponse_sets_status_and_headers_witness :
    http.checkWriteHeaderCode http.StatusNotFound = true
      ∧ ∃ w, (((⟨none, ⟨200, "", http.Header.empty⟩, "", "", ""⟩ : Server).SetResponse
            ⟨http.StatusNotFound, "\x7b\x7d",
              ⟨[("Content-Type", ["application/json"])], by decide⟩⟩).handle
            ⟨"GET", ⟨"/"⟩, ⟨[], none⟩⟩).2 = .ok w
          ∧ w.status = some 404
          ∧ w.header.get "Content-Type" = some ["application/json"] := by
  refine ⟨by decide, ?_⟩
  obtain ⟨w, h1, h2, _, h4, _⟩ := SetResponse_sets_status_and_headers
    (⟨none, ⟨200, "", http.Header.empty⟩, "", "", ""⟩ : Server)
    ⟨http.StatusNotFound, "\x7b\x7d", ⟨[("Content-Type", ["application/json"])], by decide⟩⟩
    ⟨"GET", ⟨"/"⟩, ⟨[], none⟩⟩ (by decide)
  exact ⟨w, h1, h4 (by decide),
    h2 "Content-Type" ["application/json"] (by decide) (by decide)⟩

/-- C3, at the body `100%`: the handler gives the body to `fmt.Fprintf` as the format,
so the payload written for any request is `100%!(NOVERB)`, not the configured `100%`;
likewise `%d items` is written as `%!d(MISSING) items`. -/
theorem ServeHTTP_formats_body (s : Server) (q : http.Request) :
    ((s.SetResponse ⟨200, "100%", http.Header.empty⟩).handle q).2
        = .ok ⟨http.Header.empty, some 200, [], none, 13, "100%!(NOVERB)"⟩
      ∧ ((s.SetResponse ⟨200, "%d items", http.Header.empty⟩).handle q).2
        = .ok ⟨http.Header.empty, some 200, [], none, 18, "%!d(MISSING) items"⟩ := by
  constructor
  · rw [Server.handle_snd_writer]
    simp only [Server.SetResponse]
    decide
  · rw [Server.handle_snd_writer]
    simp only [Server.SetResponse]
    decide

/-- The server `NewServer` builds, whatever the path, holds the default response and
empty records. -/
theorem NewServer_ok_fields (env : Env) (addr : List Any) (ev : List Event) (s : Server)
    (h : NewServer env addr = (ev, .ok s)) :
    s.response = ⟨http.StatusOK, "", http.Header.empty⟩
      ∧ s.method = "" ∧ s.path = "" ∧ s.body = "" := by
  unfold NewServer at h
  cases addr with
  | nil =>
    simp only [httptest.NewServer, httptest.NewUnstartedServer, httptest.Server.Start] at h
    split at h
    · simp at h
    · simp only [Prod.mk.injEq, Except.ok.injEq] at h
      rw [← h.2]
      exact ⟨rfl, rfl, rfl, rfl⟩
  | cons a rest =>
    cases a with
    | string address =>
      simp only [httptest.NewUnstartedServer, httptest.Server.Start] at h
      cases h0 : env.Listen 0 "tcp" address with
      | ok l =>
        simp only [h0, ne_eq, not_true_eq_false, if_false, Prod.mk.injEq,
          Except.ok.injEq] at h
        rw [← h.2]
        exact ⟨rfl, rfl, rfl, rfl⟩
      | error e =>
        cases h1 : env.Listen 1 "tcp" address with
        | ok l =>
          simp only [h0, h1, ne_eq, not_true_eq_false, if_false, Prod.mk.injEq,
            Except.ok.injEq] at h
          rw [← h.2]
          exact ⟨rfl, rfl, rfl, rfl⟩
        | error e' => simp [h0, h1] at h
    | int n => simp [httptest.NewUnstartedServer] at h
    | bool b => simp [httptest.NewUnstartedServer] at h
    | nil => simp [httptest.NewUnstartedServer] at h

/-- C4. A server just returned by `NewServer` holds the response with status 200, the
empty header map and the empty body, and answers its first request, whatever it is,
with status 200, no header and the empty payload. -/
theorem NewServer_default_response (env : Env) (addr : List Any) (ev : List Event)
    (s : Server) (q : http.Request) (h : NewServer env addr = (ev, .ok s)) :
    s.response = ⟨200, "", http.Header.empty⟩
      ∧ (s.handle q).2 = .ok ⟨http.Header.empty, some 200, [], none, 0, ""⟩ := by
  have hs := (NewServer_ok_fields env addr ev s h).1
  refine ⟨hs, ?_⟩
  rw [Server.handle_snd_writer, hs]
  decide

/-- An instance of C4: `NewServer()` and the request `POST /widgets`. -/
theorem NewServer_default_response_witness :
    NewServer ⟨fun _ _ _ => .error "address already in use", ⟨"tcp", "127.0.0.1:49152"⟩⟩ []
        = ([Event.Listen "tcp" "127.0.0.1:0" true, Event.Serve ⟨"tcp", "127.0.0.1:49152"⟩],
            .ok ⟨some ⟨"http://127.0.0.1:49152", ⟨"tcp", "127.0.0.1:49152"⟩⟩,
              ⟨200, "", http.Header.empty⟩, "", "", ""⟩)
      ∧ (⟨some ⟨"http://127.0.0.1:49152", ⟨"tcp", "127.0.0.1:49152"⟩⟩,
              ⟨200, "", http.Header.empty⟩, "", "", ""⟩ : Server).response
          = ⟨200, "", http.Header.empty⟩
      ∧ ((⟨some ⟨"http://127.0.0.1:49152", ⟨"tcp", "127.0.0.1:49152"⟩⟩,
              ⟨200, "", http.Header.empty⟩, "", "", ""⟩ : Server).handle
            ⟨"POST", ⟨"/widgets"⟩, ⟨["\x7b\"name\":\"x\"\x7d"], none⟩⟩).2
          = .ok ⟨http.Header.empty, some 200, [], none, 0, ""⟩ :=
  have h : NewServer ⟨fun _ _ _ => .error "address already in use",
        ⟨"tcp", "127.0.0.1:49152"⟩⟩ []
      = ([Event.Listen "tcp" "127.0.0.1:0" true, Event.Serve ⟨"tcp", "127.0.0.1:49152"⟩],
          .ok ⟨some ⟨"http://127.0.0.1:49152", ⟨"tcp", "127.0.0.1:49152"⟩⟩,
            ⟨200, "", http.Header.empty⟩, "", "", ""⟩) := by decide
  ⟨h, NewServer_default_response _ _ _ _ _ h⟩

/-- C5. `SetResponse` replaces the configured response: after `SetResponse(r1)` and then
`SetResponse(r2)` the server is the one after `SetResponse(r2)` alone, so any request
gets the same answer. An answer carries the header map of `r2` (all of it when `r2` has
no `Content-Length` entry, which the HTTP layer reads itself), so a header name absent
from `r2.Header` is not sent, whether `r1` had it or not, and its status code comes
from `r2` (the code of `r2`, or 200 after the informational code of `r2`). With
`r1 = r2`: setting a response twice is the same as setting it once. -/
theorem SetResponse_replaces (s : Server) (r1 r2 : ServerResponse) :
    (s.SetResponse r1).SetResponse r2 = s.SetResponse r2
      ∧ (∀ q, ((s.SetResponse r1).SetResponse r2).handle q = (s.SetResponse r2).handle q)
      ∧ (∀ q w, (((s.SetResponse r1).SetResponse r2).handle q).2 = .ok w →
          (r2.Header.getValue "Content-Length" = "" → w.header = r2.Header)
            ∧ (∀ k, k ≠ "Content-Length" → w.header.get k = r2.Header.get k)
            ∧ (∀ k, r2.Header.get k = none → w.header.get k = none)
            ∧ (w.status = some r2.Code
                ∨ (w.status = some 200 ∧ w.informational = [r2.Code])))
      ∧ (s.SetResponse r1).SetResponse r1 = s.SetResponse r1
      ∧ (∀ q, ((s.SetResponse r1).SetResponse r1).handle q = (s.SetResponse r1).handle q) := by
  refine ⟨rfl, fun _ => rfl, ?_, rfl, fun _ => rfl⟩
  intro q w hw
  by_cases hc : http.checkWriteHeaderCode r2.Code = true
  · obtain ⟨w', h1, h2, h3, h4, h5, h6, _⟩ :=
      Server.handle_snd_accepted ((s.SetResponse r1).SetResponse r2) q hc
    rw [h1] at hw
    cases hw
    refine ⟨h4, h2, ?_, ?_⟩
    · intro k hk
      cases hget : w.header.get k with
      | none => rfl
      | some v =>
        have := h3 k v hget
        rw [show ((s.SetResponse r1).SetResponse r2).response.Header = r2.Header from rfl,
          hk] at this
        cases this
    · by_cases hi : http.isInformational r2.Code = true
      · exact Or.inr (h6 hi)
      · exact Or.inl (h5 (by simpa using hi)).1
  · rw [Server.handle_snd_not_accepted _ _ (by simpa using hc)] at hw
    cases hw

/-- An instance of C5: the header `X-Old` of the first response is not sent after the
second response, which has no header, replaced it. -/
theorem SetResponse_replaces_witness :
    ((((⟨none, ⟨200, "", http.Header.empty⟩, "", "", ""⟩ : Server).SetResponse
          ⟨500, "old", ⟨[("X-Old", ["1"])], by decide⟩⟩).SetResponse
          ⟨201, "new", http.Header.empty⟩).handle ⟨"GET", ⟨"/"⟩, ⟨[], none⟩⟩).2
        = .ok ⟨http.Header.empty, some 201, [], none, 3, "new"⟩
      ∧ (⟨http.Header.empty, some 201, [], none, 3, "new"⟩ : http.ResponseWriter).header
          = http.Header.empty
      ∧ (⟨http.Header.empty, some 201, [], none, 3, "new"⟩ :
            http.ResponseWriter).header.get "X-Old"
          = none :=
  have h : ((((⟨none, ⟨200, "", http.Header.empty⟩, "", "", ""⟩ : Server).SetResponse
          ⟨500, "old", ⟨[("X-Old", ["1"])], by decide⟩⟩).SetResponse
          ⟨201, "new", http.Header.empty⟩).handle ⟨"GET", ⟨"/"⟩, ⟨[], none⟩⟩).2
        = .ok ⟨http.Header.empty, some 201, [], none, 3, "new"⟩ := by decide
  have h' := (SetResponse_replaces (⟨none, ⟨200, "", http.Header.empty⟩, "", "", ""⟩ : Server)
      ⟨500, "old", ⟨[("X-Old", ["1"])], by decide⟩⟩ ⟨201, "new", http.Header.empty⟩).2.2.1
      ⟨"GET", ⟨"/"⟩, ⟨[], none⟩⟩ _ h
  ⟨h, h'.1 (by decide), h'.2.2.1 "X-Old" (by decide)⟩

/-- C6, as stated, fails on five states. With the zero status code (a `ServerResponse`
given without `Code`) the handler panics in `WriteHeader` on every request and sends
nothing. With the status 204 the HTTP layer allows no body and the configured body is
not sent. With the informational code 103 the response has status 200. With a
`Content-Length` header of 1 the body `abc` is refused. With the body `100%` the
payload sent is not the configured body. -/
theorem handle_not_the_configured_response :
    (((⟨none, ⟨200, "", http.Header.empty⟩, "", "", ""⟩ : Server).SetResponse
          ⟨0, "x", http.Header.empty⟩).handle ⟨"GET", ⟨"/"⟩, ⟨[], none⟩⟩).2
        = .error (PanicValue.invalidWriteHeaderCode 0)
      ∧ (∃ w, (((⟨none, ⟨200, "", http.Header.empty⟩, "", "", ""⟩ : Server).SetResponse
            ⟨204, "x", http.Header.empty⟩).handle ⟨"GET", ⟨"/"⟩, ⟨[], none⟩⟩).2 = .ok w
          ∧ w.status = some 204 ∧ w.body = "")
      ∧ (∃ w, (((⟨none, ⟨200, "", http.Header.empty⟩, "", "", ""⟩ : Server).SetResponse
            ⟨103, "x", http.Header.empty⟩).handle ⟨"GET", ⟨"/"⟩, ⟨[], none⟩⟩).2 = .ok w
          ∧ w.status = some 200 ∧ w.informational = [103] ∧ w.body = "x")
      ∧ (∃ w, (((⟨none, ⟨200, "", http.Header.empty⟩, "", "", ""⟩ : Server).SetResponse
            ⟨200, "abc", ⟨[("Content-Length", ["1"])], by decide⟩⟩).handle
            ⟨"GET", ⟨"/"⟩, ⟨[], none⟩⟩).2 = .ok w
          ∧ w.status = some 200 ∧ w.body = "")
      ∧ (∃ w, (((⟨none, ⟨200, "", http.Header.empty⟩, "", "", ""⟩ : Server).SetResponse
            ⟨200, "100%", http.Header.empty⟩).handle ⟨"GET", ⟨"/"⟩, ⟨[], none⟩⟩).2 = .ok w
          ∧ w.status = some 200 ∧ w.body = "100%!(NOVERB)")
      ∧ "100%!(NOVERB)" ≠ "100%" := by
  refine ⟨by decide, ⟨⟨http.Header.empty, some 204, [], none, 0, ""⟩, by decide, rfl, rfl⟩,
    ⟨⟨http.Header.empty, some 200, [103], none, 1, "x"⟩, by decide, rfl, rfl, rfl⟩,
    ⟨⟨⟨[("Content-Length", ["1"])], by decide⟩, some 200, [], some 1, 3, ""⟩,
      by decide, rfl, rfl⟩,
    ⟨⟨http.Header.empty, some 200, [], none, 13, "100%!(NOVERB)"⟩, by decide, rfl, rfl⟩,
    by decide⟩

/-- C6, amended. The outcome of the handler does not depend on the request, and the
handler leaves the configured response unchanged, so a later request gets the same
outcome. When the HTTP layer accepts the configured status code, the handler returns;
the response carries the configured header map (all of it when it has no
`Content-Length` entry, which the HTTP layer reads itself). If the code is not
informational it is the status of the response; when that status allows no body (101,
204, 304) nothing is written. If the code is informational it is sent as an interim
response and the response has status 200. When a body is allowed, the configured header
map has no `Content-Length` entry and the configured body has no percent sign, the
configured body is the payload. When the HTTP layer does not accept the code the
handler panics in `WriteHeader`, on every request alike. -/
theorem handle_independent_of_request (s : Server) (q1 q2 : http.Request) :
    (s.handle q1).2 = (s.handle q2).2
      ∧ (s.handle q1).1.response = s.response
      ∧ ((s.handle q1).1.handle q2).2 = (s.handle q2).2
      ∧ (http.checkWriteHeaderCode s.response.Code = true →
          ∃ w, (s.handle q1).2 = .ok w
            ∧ (∀ k, k ≠ "Content-Length" → w.header.get k = s.response.Header.get k)
            ∧ (s.response.Header.getValue "Content-Length" = "" →
                w.header = s.response.Header)
            ∧ (http.isInformational s.response.Code = false →
                w.status = some s.response.Code
                  ∧ (http.bodyAllowedForStatus s.response.Code = false → w.body = ""))
            ∧ (http.isInformational s.response.Code = true →
                w.informational = [s.response.Code] ∧ w.status = some 200)
            ∧ ((http.isInformational s.response.Code = true
                  ∨ http.bodyAllowedForStatus s.response.Code = true) →
                s.response.Header.getValue "Content-Length" = "" →
                '%' ∉ s.response.Body.data → w.body = s.response.Body))
      ∧ (http.checkWriteHeaderCode s.response.Code = false →
          (s.handle q1).2 = .error (PanicValue.invalidWriteHeaderCode s.response.Code)) := by
  have hresp : (s.handle q1).1.response = s.response := by rw [Server.handle_fst]
  refine ⟨?_, hresp, ?_, ?_, ?_⟩
  · rw [Server.handle_snd_writer, Server.handle_snd_writer]
  · rw [Server.handle_snd_writer, Server.handle_snd_writer, hresp]
  · intro hc
    obtain ⟨w, h1, h2, _, h4, h5, h6, h7, h8⟩ := Server.handle_snd_accepted s q1 hc
    refine ⟨w, h1, h2, h4, fun hi => ⟨(h5 hi).1, h8 hi⟩, fun hi => ⟨(h6 hi).2, (h6 hi).1⟩, ?_⟩
    intro hor hcl hp
    rw [h7 hcl hor]
    exact fmt.doPrintf_of_no_percent _ hp
  · intro hc
    exact Server.handle_snd_not_accepted s q1 hc

/-- An instance of amended C6: the response of the documentation of `NewServer` is sent
whole, to `GET /` as to `POST /widgets`. -/
theorem handle_independent_of_request_witness :
    http.checkWriteHeaderCode 404 = true
      ∧ http.isInformational 404 = false
      ∧ http.bodyAllowedForStatus 404 = true
      ∧ '%' ∉ "\x7b\x7d".data
      ∧ ∃ w, ((⟨none, ⟨404, "\x7b\x7d", ⟨[("Content-Type", ["application/json"])], by decide⟩⟩,
            "", "", ""⟩ : Server).handle ⟨"GET", ⟨"/"⟩, ⟨[], none⟩⟩).2 = .ok w
          ∧ w.status = some 404
          ∧ w.header = ⟨[("Content-Type", ["application/json"])], by decide⟩
          ∧ w.body = "\x7b\x7d" := by
  refine ⟨by decide, by decide, by decide, by decide, ?_⟩
  obtain ⟨w, h1, _, h3, h4, _, h6⟩ := (handle_independent_of_request
    (⟨none, ⟨404, "\x7b\x7d", ⟨[("Content-Type", ["application/json"])], by decide⟩⟩,
      "", "", ""⟩ : Server)
    ⟨"GET", ⟨"/"⟩, ⟨[], none⟩⟩ ⟨"POST", ⟨"/widgets"⟩, ⟨["x"], none⟩⟩).2.2.2.1 (by decide)
  exact ⟨w, h1, (h4 (by decide)).1, h3 (by decide),
    h6 (Or.inr (by decide)) (by decide) (by decide)⟩

/-- C7, as stated, fails on a body reader that delivers `ab` and then fails: `ReadAll`
returns the bytes read so far with the error, and `Body()` is `ab`, not empty. -/
theorem failed_read_keeps_bytes :
    ((⟨none, ⟨200, "", http.Header.empty⟩, "", "", ""⟩ : Server).handle
        ⟨"PUT", ⟨"/upload"⟩, ⟨["ab"], some "unexpected EOF"⟩⟩).1.Body = "ab"
      ∧ "ab" ≠ "" := by
  decide

/-- C7, amended. When reading the request body ends in an error, the handler ignores the
error and records the bytes delivered before it: `Body()` returns them, the empty
string when none was delivered; `Method()` and `Path()` return the method and the path
of the request; the configured response is unchanged and the outcome is the one of any
other request. -/
theorem handle_failed_read (s : Server) (q : http.Request) (e : String)
    (herr : (ioutil.ReadAll q.Body).2 = some e) :
    ioutil.ReadAll q.Body = (String.join q.Body.chunks, some e)
      ∧ (s.handle q).1.Body = String.join q.Body.chunks
      ∧ (q.Body.chunks = [] → (s.handle q).1.Body = "")
      ∧ (s.handle q).1.Method = q.Method
      ∧ (s.handle q).1.Path = q.URL.Path
      ∧ (s.handle q).1.response = s.response
      ∧ ∀ q', (s.handle q).2 = (s.handle q').2 := by
  refine ⟨?_, ?_, ?_, ?_, ?_, ?_, ?_⟩
  · rw [← herr]; rfl
  · rw [Server.handle_fst]; rfl
  · intro hnil; rw [Server.handle_fst]; simp [Server.Body, ioutil.ReadAll, hnil]
  · rw [Server.handle_fst]; rfl
  · rw [Server.handle_fst]; rfl
  · rw [Server.handle_fst]
  · intro q'; rw [Server.handle_snd_writer, Server.handle_snd_writer]

/-- An instance of amended C7: the reader delivers `ab` and fails. -/
theorem handle_failed_read_witness :
    (ioutil.ReadAll ⟨["ab"], some "unexpected EOF"⟩).2 = some "unexpected EOF"
      ∧ ((⟨none, ⟨200, "", http.Header.empty⟩, "", "", ""⟩ : Server).handle
          ⟨"PUT", ⟨"/upload"⟩, ⟨["ab"], some "unexpected EOF"⟩⟩).1.Body = String.join ["ab"]
      ∧ ((⟨none, ⟨200, "", http.Header.empty⟩, "", "", ""⟩ : Server).handle
          ⟨"PUT", ⟨"/upload"⟩, ⟨["ab"], some "unexpected EOF"⟩⟩).1.Method = "PUT"
      ∧ ((⟨none, ⟨200, "", http.Header.empty⟩, "", "", ""⟩ : Server).handle
          ⟨"PUT", ⟨"/upload"⟩, ⟨["ab"], some "unexpected EOF"⟩⟩).1.Path = "/upload" :=
  have h := handle_failed_read (⟨none, ⟨200, "", http.Header.empty⟩, "", "", ""⟩ : Server)
    ⟨"PUT", ⟨"/upload"⟩, ⟨["ab"], some "unexpected EOF"⟩⟩ "unexpected EOF" rfl
  ⟨rfl, h.2.1, h.2.2.2.1, h.2.2.2.2.1⟩

/-- The bind phase of `NewServer(addr)` for a string, in closed form. -/
theorem NewServer_string (env : Env) (address : String) (rest : List Any) :
    NewServer env (Any.string address :: rest) =
      match env.Listen 0 "tcp" address with
      | .ok l =>
        ([Event.Listen "tcp" "127.0.0.1:0" true, Event.Listen "tcp" address true,
            Event.Serve l],
          .ok ⟨some ⟨"http://" ++ l.address, l⟩, ⟨200, "", http.Header.empty⟩, "", "", ""⟩)
      | .error _ =>
        match env.Listen 1 "tcp" address with
        | .ok l =>
          ([Event.Listen "tcp" "127.0.0.1:0" true, Event.Listen "tcp" address false,
              Event.Sleep (3 * time.Second), Event.Listen "tcp" address true, Event.Serve l],
            .ok ⟨some ⟨"http://" ++ l.address, l⟩, ⟨200, "", http.Header.empty⟩, "", "", ""⟩)
        | .error err =>
          ([Event.Listen "tcp" "127.0.0.1:0" true, Event.Listen "tcp" address false,
              Event.Sleep (3 * time.Second), Event.Listen "tcp" address false],
            .error (PanicValue.error err)) := by
  unfold NewServer
  simp only [httptest.NewUnstartedServer, httptest.Server.Start]
  cases h0 : env.Listen 0 "tcp" address with
  | ok l => simp [http.StatusOK]
  | error e =>
    cases h1 : env.Listen 1 "tcp" address with
    | ok l => simp [http.StatusOK]
    | error e' => simp

/-- C8, as stated, fails: when `NewServer(42)` panics, a listener has been opened, the
one `httptest.NewUnstartedServer` binds on the loopback address before the type of the
argument is checked. -/
theorem NewServer_int_has_listened :
    NewServer ⟨fun _ _ _ => .error "address already in use", ⟨"tcp", "127.0.0.1:49152"⟩⟩
        [Any.int 42]
      = ([Event.Listen "tcp" "127.0.0.1:0" true],
          .error (PanicValue.string "can accept only strings as addr")) := by
  decide

/-- C8, amended. `NewServer` with at least one argument panics with "can accept only
strings as addr" if and only if its first argument is not a string; when that panic
occurs `net.Listen` has not been called for the argument: the one listen made is that
of `httptest.NewUnstartedServer` on the loopback address; with a string as first
argument this panic never occurs. -/
theorem NewServer_only_strings (env : Env) (a : Any) (rest : List Any) :
    ((NewServer env (a :: rest)).2 = .error (PanicValue.string "can accept only strings as addr")
        ↔ ∀ address, a ≠ Any.string address)
      ∧ ((NewServer env (a :: rest)).2
            = .error (PanicValue.string "can accept only strings as addr") →
          (NewServer env (a :: rest)).1 = [Event.Listen "tcp" "127.0.0.1:0" true])
      ∧ (∀ address, a = Any.string address →
          (NewServer env (a :: rest)).2
            ≠ .error (PanicValue.string "can accept only strings as addr")) := by
  have hstr : ∀ address, (NewServer env (Any.string address :: rest)).2
      ≠ .error (PanicValue.string "can accept only strings as addr") := by
    intro address
    rw [NewServer_string]
    cases h0 : env.Listen 0 "tcp" address with
    | ok l => simp
    | error e =>
      cases h1 : env.Listen 1 "tcp" address with
      | ok l => simp
      | error e' => simp
  cases a with
  | string address =>
    refine ⟨⟨fun h => absurd h (hstr address), fun h => absurd rfl (h address)⟩,
      fun h => absurd h (hstr address), ?_⟩
    intro address' h
    cases h
    exact hstr address
  | int n =>
    refine ⟨⟨fun _ address h => (by cases h), fun _ => rfl⟩, fun _ => rfl, ?_⟩
    intro address h; cases h
  | bool b =>
    refine ⟨⟨fun _ address h => (by cases h), fun _ => rfl⟩, fun _ => rfl, ?_⟩
    intro address h; cases h
  | nil =>
    refine ⟨⟨fun _ address h => (by cases h), fun _ => rfl⟩, fun _ => rfl, ?_⟩
    intro address h; cases h

/-- An instance of amended C8: `NewServer(42)` panics after the loopback listen alone,
and `NewServer("localhost:8080")` does not panic so. -/
theorem NewServer_only_strings_witness :
    (NewServer ⟨fun _ _ _ => .error "address already in use", ⟨"tcp", "127.0.0.1:49152"⟩⟩
        [Any.int 42]).1 = [Event.Listen "tcp" "127.0.0.1:0" true]
      ∧ (NewServer ⟨fun _ _ _ => .error "address already in use", ⟨"tcp", "127.0.0.1:49152"⟩⟩
          [Any.string "localhost:8080"]).2
        ≠ .error (PanicValue.string "can accept only strings as addr") :=
  ⟨(NewServer_only_strings
      ⟨fun _ _ _ => .error "address already in use", ⟨"tcp", "127.0.0.1:49152"⟩⟩
      (Any.int 42) []).2.1 (by decide),
    (NewServer_only_strings
      ⟨fun _ _ _ => .error "address already in use", ⟨"tcp", "127.0.0.1:49152"⟩⟩
      (Any.string "localhost:8080") []).2.2 "localhost:8080" rfl⟩

/-- C9. `NewServer(addr)` with a string calls `net.Listen` on `addr` at most twice. If the
first call succeeds there is no sleep and no second call. If it fails there is one sleep
of 3 seconds and exactly one more call. The server returned is started on the listener
of the first call that succeeded. The panic with the bind error occurs if and only if
both calls fail, and carries the error of the second. (The first event of every trace is
the listen of `httptest.NewUnstartedServer` on the loopback address.) -/
theorem NewServer_bind_retry (env : Env) (address : String) (rest : List Any) :
    ((NewServer env (Any.string address :: rest)).1.tail.filter Event.isListen).length ≤ 2
      ∧ (∀ l, env.Listen 0 "tcp" address = .ok l →
          NewServer env (Any.string address :: rest) =
            ([Event.Listen "tcp" "127.0.0.1:0" true, Event.Listen "tcp" address true,
                Event.Serve l],
              .ok ⟨some ⟨"http://" ++ l.address, l⟩, ⟨200, "", http.Header.empty⟩,
                "", "", ""⟩))
      ∧ (∀ e l, env.Listen 0 "tcp" address = .error e → env.Listen 1 "tcp" address = .ok l →
          NewServer env (Any.string address :: rest) =
            ([Event.Listen "tcp" "127.0.0.1:0" true, Event.Listen "tcp" address false,
                Event.Sleep (3 * time.Second), Event.Listen "tcp" address true,
                Event.Serve l],
              .ok ⟨some ⟨"http://" ++ l.address, l⟩, ⟨200, "", http.Header.empty⟩,
                "", "", ""⟩))
      ∧ (∀ e e', env.Listen 0 "tcp" address = .error e →
          env.Listen 1 "tcp" address = .error e' →
          NewServer env (Any.string address :: rest) =
            ([Event.Listen "tcp" "127.0.0.1:0" true, Event.Listen "tcp" address false,
                Event.Sleep (3 * time.Second), Event.Listen "tcp" address false],
              .error (PanicValue.error e')))
      ∧ (∀ e', (NewServer env (Any.string address :: rest)).2 = .error (PanicValue.error e')
          ↔ (∃ e, env.Listen 0 "tcp" address = .error e)
            ∧ env.Listen 1 "tcp" address = .error e')
      ∧ ((∃ p, (NewServer env (Any.string address :: rest)).2 = .error p)
          ↔ (∃ e, env.Listen 0 "tcp" address = .error e)
            ∧ ∃ e', env.Listen 1 "tcp" address = .error e') := by
  rw [NewServer_string]
  cases h0 : env.Listen 0 "tcp" address with
  | ok l =>
    refine ⟨by simp [Event.isListen], ?_, ?_, ?_, ?_, ?_⟩
    · intro l' h; cases h; rfl
    · intro e l' h; cases h
    · intro e e' h; cases h
    · intro e'; simp
    · simp
  | error e =>
    cases h1 : env.Listen 1 "tcp" address with
    | ok l =>
      refine ⟨by simp [Event.isListen], ?_, ?_, ?_, ?_, ?_⟩
      · intro l' h; cases h
      · intro e1 l' _ h; cases h; rfl
      · intro e1 e' _ h; cases h
      · intro e'; simp
      · simp
    | error e' =>
      refine ⟨by simp [Event.isListen], ?_, ?_, ?_, ?_, ?_⟩
      · intro l' h; cases h
      · intro e1 l' _ h; cases h
      · intro e1 e2 _ h; cases h; rfl
      · intro e2; simp
      · simp

/-- An instance of C9: the address is busy at the first call and free at the second. -/
theorem NewServer_bind_retry_witness :
    NewServer ⟨fun n _ a => if n = 0 then .error "address already in use" else .ok ⟨"tcp", a⟩,
        ⟨"tcp", "127.0.0.1:49152"⟩⟩ [Any.string "localhost:8080"]
      = ([Event.Listen "tcp" "127.0.0.1:0" true, Event.Listen "tcp" "localhost:8080" false,
            Event.Sleep 3000000000, Event.Listen "tcp" "localhost:8080" true,
            Event.Serve ⟨"tcp", "localhost:8080"⟩],
          .ok ⟨some ⟨"http://localhost:8080", ⟨"tcp", "localhost:8080"⟩⟩,
            ⟨200, "", http.Header.empty⟩, "", "", ""⟩) :=
  (NewServer_bind_retry
    ⟨fun n _ a => if n = 0 then .error "address already in use" else .ok ⟨"tcp", a⟩,
      ⟨"tcp", "127.0.0.1:49152"⟩⟩ "localhost:8080" []).2.2.1
    "address already in use" ⟨"tcp", "localhost:8080"⟩ rfl rfl

/-! ## Interleavings: lemmas -/

theorem map_set_of_eq {α β : Type} (f : α → β) :
    ∀ (l : List α) (i : Nat) (h h' : α), l.get? i = some h → f h' = f h →
      (l.set i h').map f = l.map f := by
  intro l
  induction l with
  | nil => intro i h h' hget _; simp
  | cons a rest ih =>
    intro i h h' hget hf
    cases i with
    | zero =>
      simp only [List.get?_cons_zero, Option.some.injEq] at hget
      subst hget
      simp [hf]
    | succ n =>
      simp only [List.get?_cons_succ] at hget
      simp [ih n h h' hget hf]

theorem Handler.step_r (s : Server) (h : Handler) : (h.step s).2.r = h.r := by
  unfold Handler.step
  split <;> try rfl
  split <;> rfl

theorem Handler.step_body (s : Server) (h : Handler)
    (hloc : h.pc = PC.readAll ∨ h.body = (ioutil.ReadAll h.r.Body).1) :
    (h.step s).2.body = (ioutil.ReadAll h.r.Body).1 := by
  obtain ⟨r, w, body, pc⟩ := h
  have hb : pc = PC.readAll ∨ body = (ioutil.ReadAll r.Body).1 := hloc
  cases pc with
  | readAll => rfl
  | writeHeader =>
    have hb' : body = (ioutil.ReadAll r.Body).1 := by
      rcases hb with h0 | h0
      · cases h0
      · exact h0
    simp only [Handler.step]
    split <;> exact hb'
  | setMethod | setPath | setBody | copyHeader | fprintf | returned =>
    rcases hb with h0 | h0
    · cases h0
    · exact h0
  | panicked p =>
    rcases hb with h0 | h0
    · cases h0
    · exact h0

theorem requests_append (a b : List Step) : requests (a ++ b) = requests a ++ requests b := by
  induction a with
  | nil => rfl
  | cons x rest ih => cases x <;> simp [requests, ih]

theorem Config.step_handlers_r (c : Config) (st : Step) :
    (c.step st).handlers.map (fun h => h.r) = c.handlers.map (fun h => h.r) ++ requests [st] := by
  cases st with
  | request r => simp [Config.step, requests]
  | handler i =>
    simp only [Config.step, requests, List.append_nil]
    cases hget : c.handlers.get? i with
    | none => rfl
    | some h => exact map_set_of_eq (fun h => h.r) _ _ h _ hget (Handler.step_r c.s h)
  | SetResponse response => simp [Config.step, requests]

theorem Config.run_handlers_r (steps : List Step) :
    ∀ c : Config, (c.run steps).handlers.map (fun h => h.r)
      = c.handlers.map (fun h => h.r) ++ requests steps := by
  induction steps with
  | nil => intro c; simp [Config.run, requests]
  | cons st rest ih =>
    intro c
    have h1 := ih (c.step st)
    rw [Config.step_handlers_r] at h1
    have h2 : requests (st :: rest) = requests [st] ++ requests rest :=
      requests_append [st] rest
    rw [h2, ← List.append_assoc]
    exact h1

theorem Inv_step (m0 p0 b0 : String) (c : Config) (st : Step) (hinv : Inv m0 p0 b0 c) :
    Inv m0 p0 b0 (c.step st) := by
  obtain ⟨hloc, hm, hp, hb⟩ := hinv
  cases st with
  | request r =>
    refine ⟨?_, ?_, ?_, ?_⟩
    · intro h hh
      simp only [Config.step, List.mem_append, List.mem_singleton] at hh
      rcases hh with hh | hh
      · exact hloc h hh
      · subst hh; exact Or.inl rfl
    · simp only [Config.step, List.map_append, List.mem_cons, List.mem_append] at hm ⊢
      rcases hm with hm | hm
      · exact Or.inl hm
      · exact Or.inr (Or.inl hm)
    · simp only [Config.step, List.map_append, List.mem_cons, List.mem_append] at hp ⊢
      rcases hp with hp | hp
      · exact Or.inl hp
      · exact Or.inr (Or.inl hp)
    · simp only [Config.step, List.map_append, List.mem_cons, List.mem_append] at hb ⊢
      rcases hb with hb | hb
      · exact Or.inl hb
      · exact Or.inr (Or.inl hb)
  | SetResponse response => exact ⟨hloc, hm, hp, hb⟩
  | handler i =>
    simp only [Config.step]
    cases hget : c.handlers.get? i with
    | none => exact ⟨hloc, hm, hp, hb⟩
    | some h =>
      have hmem : h ∈ c.handlers := List.get?_mem hget
      have hr := Handler.step_r c.s h
      have e1 := map_set_of_eq (fun h => h.r.Method) _ _ h (h.step c.s).2 hget
        (by simp only [hr])
      have e2 := map_set_of_eq (fun h => h.r.URL.Path) _ _ h (h.step c.s).2 hget
        (by simp only [hr])
      have e3 := map_set_of_eq (fun h => (ioutil.ReadAll h.r.Body).1) _ _ h (h.step c.s).2 hget
        (by simp only [hr])
      have hm' : h.r.Method ∈ m0 :: c.handlers.map (fun h => h.r.Method) :=
        List.mem_cons_of_mem _ (List.mem_map_of_mem (fun h => h.r.Method) hmem)
      have hp' : h.r.URL.Path ∈ p0 :: c.handlers.map (fun h => h.r.URL.Path) :=
        List.mem_cons_of_mem _ (List.mem_map_of_mem (fun h => h.r.URL.Path) hmem)
      have hb' : (ioutil.ReadAll h.r.Body).1
          ∈ b0 :: c.handlers.map (fun h => (ioutil.ReadAll h.r.Body).1) :=
        List.mem_cons_of_mem _
          (List.mem_map_of_mem (fun h => (ioutil.ReadAll h.r.Body).1) hmem)
      have hloc_h := hloc h hmem
      have hlocal : (h.step c.s).2.pc = PC.readAll
          ∨ (h.step c.s).2.body = (ioutil.ReadAll (h.step c.s).2.r.Body).1 := by
        rw [hr]; exact Or.inr (Handler.step_body c.s h hloc_h)
      have hfields : (h.step c.s).1.method ∈ m0 :: c.handlers.map (fun h => h.r.Method)
          ∧ (h.step c.s).1.path ∈ p0 :: c.handlers.map (fun h => h.r.URL.Path)
          ∧ (h.step c.s).1.body
              ∈ b0 :: c.handlers.map (fun h => (ioutil.ReadAll h.r.Body).1) := by
        unfold Handler.step
        split
        · exact ⟨hm, hp, hb⟩
        · exact ⟨hm', hp, hb⟩
        · exact ⟨hm, hp', hb⟩
        · rename_i hpc
          refine ⟨hm, hp, ?_⟩
          rcases hloc_h with h0 | h0
          · rw [h0] at hpc; cases hpc
          · show h.body ∈ _
            rw [h0]; exact hb'
        · exact ⟨hm, hp, hb⟩
        · split <;> exact ⟨hm, hp, hb⟩
        · exact ⟨hm, hp, hb⟩
        · exact ⟨hm, hp, hb⟩
        · exact ⟨hm, hp, hb⟩
      refine ⟨?_, ?_, ?_, ?_⟩
      · intro x hx
        rcases List.mem_or_eq_of_mem_set hx with hx | hx
        · exact hloc x hx
        · subst hx; exact hlocal
      · show (h.step c.s).1.method ∈ m0 :: (c.handlers.set i (h.step c.s).2).map _
        rw [e1]; exact hfields.1
      · show (h.step c.s).1.path ∈ p0 :: (c.handlers.set i (h.step c.s).2).map _
        rw [e2]; exact hfields.2.1
      · show (h.step c.s).1.body ∈ b0 :: (c.handlers.set i (h.step c.s).2).map _
        rw [e3]; exact hfields.2.2

theorem Inv_run (m0 p0 b0 : String) (steps : List Step) :
    ∀ c : Config, Inv m0 p0 b0 c → Inv m0 p0 b0 (c.run steps) := by
  induction steps with
  | nil => intro c h; exact h
  | cons st rest ih => intro c h; exact ih (c.step st) (Inv_step m0 p0 b0 c st h)

theorem Config.step_last (s : Server) (hs : List Handler) (h : Handler) :
    Config.step ⟨s, hs ++ [h]⟩ (Step.handler hs.length)
      = ⟨(h.step s).1, hs ++ [(h.step s).2]⟩ := by
  have hget : (hs ++ [h]).get? hs.length = some h := by simp
  have hset : ∀ (l : List Handler) (a b : Handler), (l ++ [a]).set l.length b = l ++ [b] := by
    intro l
    induction l with
    | nil => intro a b; rfl
    | cons x rest ih => intro a b; simp [ih]
  simp only [Config.step, hget, hset]

/-- A handler that runs all its statements with no other step in between does what
`ServeHTTP` does: the server afterwards is the one of `handle`, and the handler has
returned with the writer of `handle`, or has panicked with the panic of `handle`. -/
theorem Config.run_alone (c : Config) (r : http.Request) :
    (c.run (Step.request r :: List.replicate 7 (Step.handler c.handlers.length))).s
        = (c.s.handle r).1
      ∧ ∃ h, (c.run (Step.request r :: List.replicate 7 (Step.handler c.handlers.length))).handlers
          = c.handlers ++ [h]
        ∧ h.r = r
        ∧ match (c.s.handle r).2 with
          | .ok w => h.w = w ∧ h.pc = PC.returned
          | .error p => h.pc = PC.panicked p := by
  obtain ⟨s, hs⟩ := c
  have e5 : Config.run ⟨s, hs⟩ (Step.request r :: List.replicate 5 (Step.handler hs.length))
      = ⟨{ s with method := r.Method, path := r.URL.Path, body := (ioutil.ReadAll r.Body).1 },
          hs ++ [⟨r, ⟨s.response.Header, none, [], none, 0, ""⟩, (ioutil.ReadAll r.Body).1,
            PC.writeHeader⟩]⟩ := by
    have e0 : Config.step ⟨s, hs⟩ (Step.request r)
        = ⟨s, hs ++ [⟨r, http.ResponseWriter.fresh, "", PC.readAll⟩]⟩ := rfl
    simp only [Config.run, List.foldl_cons, List.replicate, List.foldl_nil, e0,
      Config.step_last, Handler.step, Server.setMethod, Server.setPath, Server.setBody,
      http.ResponseWriter.fresh, Server.copyHeader_new]
  have esplit : Step.request r :: List.replicate 7 (Step.handler hs.length)
      = (Step.request r :: List.replicate 5 (Step.handler hs.length))
        ++ [Step.handler hs.length, Step.handler hs.length] := rfl
  have erun : ∀ (c : Config) (a b : List Step), c.run (a ++ b) = (c.run a).run b := by
    intro c a b; simp [Config.run, List.foldl_append]
  show (Config.run ⟨s, hs⟩ (Step.request r :: List.replicate 7 (Step.handler hs.length))).s = _
    ∧ ∃ h, (Config.run ⟨s, hs⟩
        (Step.request r :: List.replicate 7 (Step.handler hs.length))).handlers = hs ++ [h] ∧ _
  rw [esplit, erun, e5, Server.handle_fst, Server.handle_snd_writer]
  cases hW : (⟨s.response.Header, none, [], none, 0, ""⟩ : http.ResponseWriter).WriteHeader
      s.response.Code with
  | error p =>
    simp only [Config.run, List.foldl_cons, List.foldl_nil, Config.step_last, Handler.step, hW]
    exact ⟨trivial, _, rfl, rfl, rfl⟩
  | ok w =>
    simp only [Config.run, List.foldl_cons, List.foldl_nil, Config.step_last, Handler.step, hW]
    exact ⟨trivial, _, rfl, rfl, rfl, rfl⟩

/-- C10, as stated, fails. First schedule: `GET /a` with body `x` is handled to the end,
then the handler of `POST /b` with body `y` executes `ReadAll` and `setMethod`: the
accessors now return the method of the second request with the path and the body of
the first. Second schedule: a handler copies the headers of the first response, then
the test calls `SetResponse`, then the handler sends the status and the body of the
second response. -/
theorem run_mixes_requests_and_responses :
    ((Config.run ⟨⟨none, ⟨200, "", http.Header.empty⟩, "", "", ""⟩, []⟩
          [Step.request ⟨"GET", ⟨"/a"⟩, ⟨["x"], none⟩⟩,
            Step.handler 0, Step.handler 0, Step.handler 0, Step.handler 0,
            Step.handler 0, Step.handler 0, Step.handler 0,
            Step.request ⟨"POST", ⟨"/b"⟩, ⟨["y"], none⟩⟩,
            Step.handler 1, Step.handler 1]).s.Method = "POST"
      ∧ (Config.run ⟨⟨none, ⟨200, "", http.Header.empty⟩, "", "", ""⟩, []⟩
          [Step.request ⟨"GET", ⟨"/a"⟩, ⟨["x"], none⟩⟩,
            Step.handler 0, Step.handler 0, Step.handler 0, Step.handler 0,
            Step.handler 0, Step.handler 0, Step.handler 0,
            Step.request ⟨"POST", ⟨"/b"⟩, ⟨["y"], none⟩⟩,
            Step.handler 1, Step.handler 1]).s.Path = "/a"
      ∧ (Config.run ⟨⟨none, ⟨200, "", http.Header.empty⟩, "", "", ""⟩, []⟩
          [Step.request ⟨"GET", ⟨"/a"⟩, ⟨["x"], none⟩⟩,
            Step.handler 0, Step.handler 0, Step.handler 0, Step.handler 0,
            Step.handler 0, Step.handler 0, Step.handler 0,
            Step.request ⟨"POST", ⟨"/b"⟩, ⟨["y"], none⟩⟩,
            Step.handler 1, Step.handler 1]).s.Body = "x")
      ∧ (Config.run ⟨⟨none, ⟨200, "", http.Header.empty⟩, "", "", ""⟩, []⟩
          [Step.SetResponse ⟨500, "first", ⟨[("X-Response", ["first"])], by decide⟩⟩,
            Step.request ⟨"GET", ⟨"/a"⟩, ⟨[], none⟩⟩,
            Step.handler 0, Step.handler 0, Step.handler 0, Step.handler 0, Step.handler 0,
            Step.SetResponse ⟨201, "second", http.Header.empty⟩,
            Step.handler 0, Step.handler 0]).handlers
        = [⟨⟨"GET", ⟨"/a"⟩, ⟨[], none⟩⟩,
            ⟨⟨[("X-Response", ["first"])], by decide⟩, some 201, [], none, 6, "second"⟩, "",
            PC.returned⟩] := by
  decide

/-- C10, amended. The handler records a request field by field, each field in a critical
section of its own. In every interleaving of handlers and `SetResponse` calls, from any
server, each of `Method()`, `Path()` and `Body()` returns the value the server started
with or the method, the path, the body read of one request that has arrived; the three
need not come from the same request. A handler whose statements run with no other step
in between leaves the record and the outcome of `ServeHTTP`. -/
theorem run_fields_from_requests (s : Server) (steps : List Step) :
    (Config.run ⟨s, []⟩ steps).s.Method
        ∈ s.Method :: (requests steps).map (fun r => r.Method)
      ∧ (Config.run ⟨s, []⟩ steps).s.Path
        ∈ s.Path :: (requests steps).map (fun r => r.URL.Path)
      ∧ (Config.run ⟨s, []⟩ steps).s.Body
        ∈ s.Body :: (requests steps).map (fun r => (ioutil.ReadAll r.Body).1)
      ∧ ∀ r, ((Config.run ⟨s, []⟩ steps).run
            (Step.request r :: List.replicate 7
              (Step.handler (Config.run ⟨s, []⟩ steps).handlers.length))).s
          = ((Config.run ⟨s, []⟩ steps).s.handle r).1 := by
  have hinv : Inv s.method s.path s.body (Config.run ⟨s, []⟩ steps) :=
    Inv_run _ _ _ steps ⟨s, []⟩
      ⟨fun h hh => (by cases hh), List.mem_cons_self _ _, List.mem_cons_self _ _,
        List.mem_cons_self _ _⟩
  have hr := Config.run_handlers_r steps ⟨s, []⟩
  simp only [List.map_nil, List.nil_append] at hr
  obtain ⟨_, hm, hp, hb⟩ := hinv
  have e1 : (Config.run ⟨s, []⟩ steps).handlers.map (fun h => h.r.Method)
      = (requests steps).map (fun r => r.Method) := by
    rw [← hr, List.map_map]; rfl
  have e2 : (Config.run ⟨s, []⟩ steps).handlers.map (fun h => h.r.URL.Path)
      = (requests steps).map (fun r => r.URL.Path) := by
    rw [← hr, List.map_map]; rfl
  have e3 : (Config.run ⟨s, []⟩ steps).handlers.map (fun h => (ioutil.ReadAll h.r.Body).1)
      = (requests steps).map (fun r => (ioutil.ReadAll r.Body).1) := by
    rw [← hr, List.map_map]; rfl
  rw [e1] at hm; rw [e2] at hp; rw [e3] at hb
  exact ⟨hm, hp, hb, fun r => (Config.run_alone _ r).1⟩

end testutils
